import Mathlib

/-
Verification of the member-profile pallet (pallets/member/src/lib.rs).

Modeling conventions:
- The pallet is generic over the runtime configuration `T: Config`; we instantiate
  `T::AccountId` with `Nat` and gather the five `Max*Length` constants in a `Cfg`
  structure (the mock runtime uses 50/50/100/200/20).
- Rust byte strings (`Vec<u8>`) that reach the validators are decoded with
  `core::str::from_utf8`; we model string inputs as their decoded form `List Char`
  and measure Rust `len()` (a byte count) with `utf8Len` (sum of UTF-8 sizes).
- `MemberUuid` is `H256`, produced by `BlakeTwo256::hash(account ‖ timestamp)`.
  We model the hash symbolically as the injective pairing `(account, timestamp)`,
  i.e. a collision-free hash.
- `current_timestamp()` reads the block number; each call takes it as a `now`
  argument.
- Storage maps are association lists with first-match lookup; `insertA` replaces
  in place, `removeA` deletes, so they behave as the key-value maps of FRAME
  storage.
- Rust indexing `chars[i]` panics when out of bounds; results are therefore a
  three-way `PRes` (ok / pallet error / panicked) and operations run in a
  state-threading monad `Op` whose error outcome keeps the partially written
  state, so that the transactional rollback performed by the dispatch layer is
  modeled separately (`dispatchCall`).
-/

set_option linter.unusedVariables false

namespace MemberPallet

/-- Account identifier (the pallet is generic over `T::AccountId`). -/
abbrev AccountId := Nat

/-- Decoded byte-string contents. -/
abbrev Str := List Char

/-- Opaque 32-byte content hash (`H256` used for `photo_hash` / `kyc_hash`). -/
abbrev Hash := Nat

/-- Member UUID: `H256` computed by `BlakeTwo256::hash(account.encode() ‖ timestamp.to_le_bytes())`,
modeled as the injective pair (account, timestamp) — a collision-free symbolic hash. -/
abbrev MemberUuid := AccountId × Nat

/-- The pallet's error enum (`Error<T>`), plus `BadOrigin` for `ensure_signed` /
`ensure_root` failures (a `DispatchError` in FRAME, not a pallet error). -/
inductive Err where
  | NoneValue
  | StorageOverflow
  | MemberNotFound
  | MemberAlreadyExists
  | EmailAlreadyExists
  | NotMemberOwner
  | InvalidMemberData
  | AccessDenied
  | KycNotFound
  | InvalidKycStatusTransition
  | EmailUnchanged
  | UnauthorizedKycUpdate
  | InvalidEmailFormat
  | InvalidMobileFormat
  | InvalidDateFormat
  | BadOrigin
  deriving DecidableEq, Repr

/-- KYC Status enumeration. -/
inductive KycStatus where
  | Unapproved
  | Approved
  | Rejected
  deriving DecidableEq, Repr

/-- MemberType enumeration. -/
inductive MemberType where
  | UniversityStudent
  | SchoolStudent
  | Professional
  | General
  deriving DecidableEq, Repr

/-- The canonical member record (struct `Member<T>`). -/
structure Member where
  member_id : MemberUuid
  member_type : MemberType
  first_name : Str
  last_name : Str
  date_of_birth : Str
  email : Str
  address : Str
  mobile : Str
  kyc_status : KycStatus
  photo_hash : Option Hash
  kyc_hash : Option Hash
  created_at : Nat
  updated_at : Nat
  created_by : AccountId
  deriving DecidableEq, Repr

/-- Call origin: a signed account or the root origin. -/
inductive Origin where
  | signed (who : AccountId)
  | root
  deriving DecidableEq, Repr

/-- Runtime configuration constants (`MaxFirstNameLength`, ...). -/
structure Cfg where
  maxFirstNameLength : Nat
  maxLastNameLength : Nat
  maxEmailLength : Nat
  maxAddressLength : Nat
  maxMobileLength : Nat
  deriving DecidableEq, Repr

/-! ### Association-list maps (the FRAME `StorageMap`s) -/

/-- First-match lookup in an association list. -/
def lookupA {α β : Type} [DecidableEq α] : List (α × β) → α → Option β
  | [], _ => none
  | (k, v) :: rest, a => if k = a then some v else lookupA rest a

/-- In-place insert-or-replace (`StorageMap::insert`). -/
def insertA {α β : Type} [DecidableEq α] : List (α × β) → α → β → List (α × β)
  | [], a, b => [(a, b)]
  | (k, v) :: rest, a, b => if k = a then (a, b) :: rest else (k, v) :: insertA rest a b

/-- Key removal (`StorageMap::remove`). -/
def removeA {α β : Type} [DecidableEq α] : List (α × β) → α → List (α × β)
  | [], _ => []
  | (k, v) :: rest, a => if k = a then removeA rest a else (k, v) :: removeA rest a

/-! ### Character classes and byte lengths -/

/-- Rust `char::is_ascii_digit`. -/
def isAsciiDigitC (c : Char) : Bool := 48 ≤ c.toNat && c.toNat ≤ 57

/-- Rust `char::is_ascii_alphanumeric`. -/
def isAsciiAlphanumericC (c : Char) : Bool :=
  (65 ≤ c.toNat && c.toNat ≤ 90) || (97 ≤ c.toNat && c.toNat ≤ 122) || isAsciiDigitC c

/-- Valid character of an email local part (source lines 772-778). -/
def isLocalChar (c : Char) : Bool :=
  isAsciiAlphanumericC c || c == '.' || c == '_' || c == '-' || c == '+'

/-- Valid character of an email domain part (source lines 781-786). -/
def isDomainChar (c : Char) : Bool :=
  isAsciiAlphanumericC c || c == '.' || c == '-'

/-- Rust `str::len()`: the UTF-8 byte length of the decoded string. -/
def utf8Len (s : Str) : Nat := (s.map Char.utf8Size).sum

/-- Rust `str::split(char)` (for a char pattern: n occurrences yield n+1 pieces). -/
def splitAtChar (c : Char) : Str → List Str
  | [] => [[]]
  | x :: xs =>
    if x = c then [] :: splitAtChar c xs
    else
      match splitAtChar c xs with
      | [] => [[x]]
      | p :: ps => (x :: p) :: ps

/-- Rust `str::contains("..")`: two consecutive dots occur. -/
def hasConsecDots : Str → Bool
  | [] => false
  | [_] => false
  | c1 :: c2 :: rest => (c1 == '.' && c2 == '.') || hasConsecDots (c2 :: rest)

/-! ### The validation layer -/

/-- The per-part checks of `Pallet::validate_email` (source lines 761-786), on
the already-split local part and domain part. Inputs are modeled after the
`from_utf8` decoding step; a non-UTF-8 input fails there with `InvalidEmailFormat`. -/
def emailChecks (l d : Str) : Except Err Unit :=
  if l ≠ [] ∧ utf8Len l ≤ 64 then
    if l.head? ≠ some '.' ∧ l.getLast? ≠ some '.' then
      if ¬ hasConsecDots l then
        if d ≠ [] ∧ utf8Len d ≤ 253 then
          if '.' ∈ d then
            if d.head? ≠ some '.' ∧ d.getLast? ≠ some '.' then
              if d.head? ≠ some '-' ∧ d.getLast? ≠ some '-' then
                if l.all isLocalChar then
                  if d.all isDomainChar then .ok ()
                  else .error .InvalidEmailFormat
                else .error .InvalidEmailFormat
              else .error .InvalidEmailFormat
            else .error .InvalidEmailFormat
          else .error .InvalidEmailFormat
        else .error .InvalidEmailFormat
      else .error .InvalidEmailFormat
    else .error .InvalidEmailFormat
  else .error .InvalidEmailFormat

/-- `Pallet::validate_email` (source lines 744-758): the exactly-one-at-sign and
two-parts checks, followed by `emailChecks` on `parts[0]` and `parts[1]`. -/
def validate_email (email : Str) : Except Err Unit :=
  if email.count '@' ≠ 1 then .error .InvalidEmailFormat
  else
    let parts := splitAtChar '@' email
    if parts.length = 2 then emailChecks (parts.getD 0 []) (parts.getD 1 [])
    else .error .InvalidEmailFormat

/-- `Pallet::validate_mobile` (source lines 792-812). The slice `&mobile_str[1..]`
after a leading `'+'` (one byte) is `drop 1` on the decoded characters. -/
def validate_mobile (mobile : Str) : Except Err Unit :=
  let number_part := if mobile.head? = some '+' then mobile.drop 1 else mobile
  if 7 ≤ utf8Len number_part ∧ utf8Len number_part ≤ 15 then
    if number_part.all isAsciiDigitC then .ok () else .error .InvalidMobileFormat
  else .error .InvalidMobileFormat

/-- Outcome of running possibly-panicking code: success, a typed error, or a Rust
panic (out-of-bounds indexing). -/
inductive PRes (α : Type) where
  | ok (a : α)
  | err (e : Err)
  | panicked
  deriving DecidableEq, Repr

/-- Sequencing of possibly-panicking checks. -/
def pseq {α : Type} (a : PRes Unit) (b : PRes α) : PRes α :=
  match a with
  | .ok _ => b
  | .err e => .err e
  | .panicked => .panicked

/-- The Rust loop `for i in lo..lo+n { ensure!(chars[i].is_ascii_digit(), ...) }`:
each round trip first indexes (panicking when out of bounds), then tests. -/
def checkDigits (s : Str) : Nat → Nat → PRes Unit
  | _, 0 => .ok ()
  | i, n + 1 =>
    match s[i]? with
    | none => .panicked
    | some c => if isAsciiDigitC c then checkDigits s (i + 1) n else .err .InvalidDateFormat

/-- Value of `str::parse::<u32>()` on a run of ASCII digits (at most four digits
here, so the `u32` parse never overflows). -/
def digitsVal (cs : Str) : Nat := cs.foldl (fun a c => a * 10 + (c.toNat - 48)) 0

/-- `Pallet::validate_date` (source lines 815-866). `date_str.len()` is the byte
length; `chars` is the decoded character vector, indexed with the panicking `[]`;
`chars[4] == '-' && chars[7] == '-'` short-circuits, so `chars[7]` is only
evaluated when `chars[4]` exists and equals `'-'`. The byte slices
`&date_str[0..4]`, `[5..7]`, `[8..10]` are taken only after all ten positions
were checked to hold ASCII digits or dashes (which forces a 10-character ASCII
string), so they coincide with the char ranges used below. -/
def validate_date (date : Str) : PRes Unit :=
  if utf8Len date ≠ 10 then .err .InvalidDateFormat
  else
    match date[4]? with
    | none => .panicked
    | some c4 =>
      if c4 ≠ '-' then .err .InvalidDateFormat
      else
        match date[7]? with
        | none => .panicked
        | some c7 =>
          if c7 ≠ '-' then .err .InvalidDateFormat
          else
            pseq (checkDigits date 0 4) (pseq (checkDigits date 5 2)
              (pseq (checkDigits date 8 2)
                (let year := digitsVal (date.take 4)
                 let month := digitsVal ((date.drop 5).take 2)
                 let day := digitsVal ((date.drop 8).take 2)
                 if 1900 ≤ year ∧ year ≤ 2100 then
                   if 1 ≤ month ∧ month ≤ 12 then
                     if 1 ≤ day ∧ day ≤ 31 then .ok ()
                     else .err .InvalidDateFormat
                   else .err .InvalidDateFormat
                 else .err .InvalidDateFormat)))

/-! ### Pallet state, events and the operation monad -/

/-- The pallet's events (`Event<T>`); the template's `SomethingStored` is out of
scope (§1 of the spec). -/
inductive Event where
  | MemberRegistered (member_id : MemberUuid) (account : AccountId) (email : Str)
  | MemberUpdated (member_id : MemberUuid) (updated_by : AccountId)
      (previous_email : Option Str) (new_email : Str)
  | KycSubmitted (member_id : MemberUuid) (submitted_by : AccountId) (kyc_hash : Hash)
  | KycStatusUpdated (member_id : MemberUuid) (updated_by : AccountId)
      (old_status : KycStatus) (new_status : KycStatus)
  | MemberDataRetrieved (member_id : MemberUuid) (accessed_by : AccountId)
      (member_type : MemberType) (first_name : Str) (last_name : Str)
      (date_of_birth : Str) (email : Str) (address : Str) (mobile : Str)
      (photo_hash : Option Hash) (kyc_status : KycStatus) (kyc_hash : Option Hash)
      (created_at : Nat) (updated_at : Nat)
  deriving DecidableEq, Repr

/-- The pallet's storage: the four maps, the counter, and the event log deposited
by the frame-system (rolled back together with storage on error). -/
structure PalletState where
  members : List (MemberUuid × Member)
  accountToMember : List (AccountId × MemberUuid)
  memberByEmail : List (Str × MemberUuid)
  memberByIndex : List (Nat × MemberUuid)
  memberCount : Nat
  events : List Event
  deriving DecidableEq, Repr

/-- Genesis storage: all maps empty, counter zero. -/
def initState : PalletState :=
  { members := [], accountToMember := [], memberByEmail := [], memberByIndex := [],
    memberCount := 0, events := [] }

/-- Raw outcome of running pallet code over storage: success, a dispatch error, or
a panic. The error and panic outcomes keep the storage as written so far (the
transactional rollback lives in `dispatchCall`, not here). -/
inductive OpOut (α : Type) where
  | ok (a : α) (s : PalletState)
  | err (e : Err) (s : PalletState)
  | panicked (s : PalletState)
  deriving DecidableEq, Repr

/-- State-threading computation over pallet storage. -/
def Op (α : Type) : Type := PalletState → OpOut α

instance : Monad Op where
  pure a := fun s => .ok a s
  bind x f := fun s =>
    match x s with
    | .ok a s' => f a s'
    | .err e s' => .err e s'
    | .panicked s' => .panicked s'

/-- Raise a pallet error (Rust `?` / a failing `ensure!`). -/
def throwE {α : Type} (e : Err) : Op α := fun s => .err e s

/-- Lift a pure `Except` computation (the non-panicking validators, `try_into`). -/
def liftE {α : Type} (x : Except Err α) : Op α :=
  fun s => match x with
  | .ok a => .ok a s
  | .error e => .err e s

/-- Lift a possibly-panicking pure computation. -/
def liftP {α : Type} (x : PRes α) : Op α :=
  fun s => match x with
  | .ok a => .ok a s
  | .err e => .err e s
  | .panicked => .panicked s

/-- Rust `ensure!(c, e)`. -/
def ensureOp (c : Prop) [Decidable c] (e : Err) : Op Unit :=
  if c then pure () else throwE e

/-- Unwrap an `Option` with `.ok_or(e)?`. -/
def okOr {α : Type} (x : Option α) (e : Err) : Op α :=
  match x with
  | some a => pure a
  | none => throwE e

/-- `ensure_signed(origin)?`. -/
def ensureSignedOp (o : Origin) : Op AccountId :=
  match o with
  | .signed who => pure who
  | .root => throwE .BadOrigin

/-- `ensure_root(origin)?`. -/
def ensureRootOp (o : Origin) : Op Unit :=
  match o with
  | .root => pure ()
  | .signed _ => throwE .BadOrigin

/-- `Members::<T>::get`. -/
def getMembers (id : MemberUuid) : Op (Option Member) :=
  fun s => .ok (lookupA s.members id) s

/-- `Members::<T>::insert`. -/
def putMembers (id : MemberUuid) (m : Member) : Op Unit :=
  fun s => .ok () { s with members := insertA s.members id m }

/-- `AccountToMember::<T>::get`. -/
def getA2M (a : AccountId) : Op (Option MemberUuid) :=
  fun s => .ok (lookupA s.accountToMember a) s

/-- `AccountToMember::<T>::insert`. -/
def putA2M (a : AccountId) (id : MemberUuid) : Op Unit :=
  fun s => .ok () { s with accountToMember := insertA s.accountToMember a id }

/-- `MemberByEmail::<T>::get`. -/
def getEmailIdx (e : Str) : Op (Option MemberUuid) :=
  fun s => .ok (lookupA s.memberByEmail e) s

/-- `MemberByEmail::<T>::insert`. -/
def putEmailIdx (e : Str) (id : MemberUuid) : Op Unit :=
  fun s => .ok () { s with memberByEmail := insertA s.memberByEmail e id }

/-- `MemberByEmail::<T>::remove`. -/
def removeEmailIdx (e : Str) : Op Unit :=
  fun s => .ok () { s with memberByEmail := removeA s.memberByEmail e }

/-- `MemberByIndex::<T>::insert`. -/
def putMemberByIndex (i : Nat) (id : MemberUuid) : Op Unit :=
  fun s => .ok () { s with memberByIndex := insertA s.memberByIndex i id }

/-- `MemberCount::<T>::get`. -/
def getMemberCount : Op Nat := fun s => .ok s.memberCount s

/-- `MemberCount::<T>::put`. -/
def putMemberCount (n : Nat) : Op Unit := fun s => .ok () { s with memberCount := n }

/-- `Self::deposit_event`. -/
def depositEvent (ev : Event) : Op Unit :=
  fun s => .ok () { s with events := s.events ++ [ev] }

/-- `u32::MAX`. -/
def u32Max : Nat := 4294967295

/-- `u32::saturating_add(1)` on the member counter. -/
def satAdd1 (n : Nat) : Nat := min (n + 1) u32Max

/-- `TryInto<BoundedVec<u8, N>>`: succeeds (with the same contents) when the byte
length fits the bound, else yields the conversion error mapped at the call site. -/
def toBounded (v : Str) (maxLen : Nat) (e : Err) : Except Err Str :=
  if utf8Len v ≤ maxLen then .ok v else .error e

/-- `Pallet::generate_member_uuid`: `BlakeTwo256::hash(account ‖ timestamp_le)`,
modeled as the injective pair. -/
def genUuid (account : AccountId) (timestamp : Nat) : MemberUuid := (account, timestamp)

/-! ### The dispatchables -/

/-- `register_member` (source lines 350-442). `now` is `current_timestamp()`,
i.e. the block number at dispatch time. -/
def registerMember (cfg : Cfg) (origin : Origin) (member_type : MemberType)
    (first_name last_name date_of_birth email address mobile : Str)
    (now : Nat) : Op Unit := do
  let who ← ensureSignedOp origin
  let existing ← getA2M who
  ensureOp (existing = none) .MemberAlreadyExists
  liftE (validate_email email)
  liftE (validate_mobile mobile)
  liftP (validate_date date_of_birth)
  let bounded_first_name ← liftE (toBounded first_name cfg.maxFirstNameLength .InvalidMemberData)
  let bounded_last_name ← liftE (toBounded last_name cfg.maxLastNameLength .InvalidMemberData)
  let bounded_date_of_birth ← liftE (toBounded date_of_birth 10 .InvalidDateFormat)
  let bounded_email ← liftE (toBounded email cfg.maxEmailLength .InvalidMemberData)
  let bounded_address ← liftE (toBounded address cfg.maxAddressLength .InvalidMemberData)
  let bounded_mobile ← liftE (toBounded mobile cfg.maxMobileLength .InvalidMemberData)
  let emailBound ← getEmailIdx bounded_email
  ensureOp (emailBound = none) .EmailAlreadyExists
  let member_id := genUuid who now
  let member : Member :=
    { member_id := member_id, member_type := member_type,
      first_name := bounded_first_name, last_name := bounded_last_name,
      date_of_birth := bounded_date_of_birth, email := bounded_email,
      address := bounded_address, mobile := bounded_mobile,
      kyc_status := .Unapproved, photo_hash := none, kyc_hash := none,
      created_at := now, updated_at := now, created_by := who }
  let member_index ← getMemberCount
  putMembers member_id member
  putA2M who member_id
  putEmailIdx bounded_email member_id
  putMemberByIndex member_index member_id
  putMemberCount (satAdd1 member_index)
  depositEvent (.MemberRegistered member_id who bounded_email)

/-- `get_member` (source lines 445-480). -/
def getMemberCall (origin : Origin) : Op Unit := do
  let who ← ensureSignedOp origin
  let member_id ← okOr (← getA2M who) .MemberNotFound
  let member ← okOr (← getMembers member_id) .MemberNotFound
  ensureOp (member.created_by = who) .NotMemberOwner
  depositEvent (.MemberDataRetrieved member_id who member.member_type
    member.first_name member.last_name member.date_of_birth member.email
    member.address member.mobile member.photo_hash member.kyc_status
    member.kyc_hash member.created_at member.updated_at)

/-- The `member_type` branch of `update_member` (source lines 513-518); pure. -/
def updMemberTypeStep (m : Member) (changed : Bool) : Option MemberType → Member × Bool
  | none => (m, changed)
  | some mt => if mt ≠ m.member_type then ({ m with member_type := mt }, true) else (m, changed)

/-- The `first_name` branch of `update_member` (source lines 521-528). -/
def updFirstNameStep (cfg : Cfg) (m : Member) (changed : Bool) :
    Option Str → Except Err (Member × Bool)
  | none => .ok (m, changed)
  | some name =>
    match toBounded name cfg.maxFirstNameLength .InvalidMemberData with
    | .error e => .error e
    | .ok bounded =>
      if bounded ≠ m.first_name then .ok ({ m with first_name := bounded }, true)
      else .ok (m, changed)

/-- The `last_name` branch of `update_member` (source lines 531-538). -/
def updLastNameStep (cfg : Cfg) (m : Member) (changed : Bool) :
    Option Str → Except Err (Member × Bool)
  | none => .ok (m, changed)
  | some name =>
    match toBounded name cfg.maxLastNameLength .InvalidMemberData with
    | .error e => .error e
    | .ok bounded =>
      if bounded ≠ m.last_name then .ok ({ m with last_name := bounded }, true)
      else .ok (m, changed)

/-- The `date_of_birth` branch of `update_member` (source lines 541-551);
`validate_date` may panic. -/
def updDobStep (m : Member) (changed : Bool) : Option Str → PRes (Member × Bool)
  | none => .ok (m, changed)
  | some dob =>
    pseq (validate_date dob)
      (match toBounded dob 10 .InvalidDateFormat with
       | .error e => .err e
       | .ok bounded =>
         if bounded ≠ m.date_of_birth then .ok ({ m with date_of_birth := bounded }, true)
         else .ok (m, changed))

/-- The `email` branch of `update_member` (source lines 554-576): validates, then
on an actual change checks uniqueness (self-collision tolerated), removes the old
index entry and inserts the new one. Returns the working member, the changed
flag, and the local `new_email` variable. -/
def updEmailStep (cfg : Cfg) (member_id : MemberUuid) (m : Member) (changed : Bool) :
    Option Str → Op (Member × Bool × Str)
  | none => pure (m, changed, m.email)
  | some v => do
    liftE (validate_email v)
    let bounded ← liftE (toBounded v cfg.maxEmailLength .InvalidMemberData)
    if bounded ≠ m.email then do
      let existing ← getEmailIdx bounded
      match existing with
      | some existing_member_id => ensureOp (existing_member_id = member_id) .EmailAlreadyExists
      | none => pure ()
      removeEmailIdx m.email
      putEmailIdx bounded member_id
      pure ({ m with email := bounded }, true, bounded)
    else pure (m, changed, m.email)

/-- The `address` branch of `update_member` (source lines 579-586). -/
def updAddressStep (cfg : Cfg) (m : Member) (changed : Bool) :
    Option Str → Except Err (Member × Bool)
  | none => .ok (m, changed)
  | some addr =>
    match toBounded addr cfg.maxAddressLength .InvalidMemberData with
    | .error e => .error e
    | .ok bounded =>
      if bounded ≠ m.address then .ok ({ m with address := bounded }, true)
      else .ok (m, changed)

/-- The `mobile` branch of `update_member` (source lines 589-599). -/
def updMobileStep (cfg : Cfg) (m : Member) (changed : Bool) :
    Option Str → Except Err (Member × Bool)
  | none => .ok (m, changed)
  | some mob =>
    match validate_mobile mob with
    | .error e => .error e
    | .ok _ =>
      match toBounded mob cfg.maxMobileLength .InvalidMemberData with
      | .error e => .error e
      | .ok bounded =>
        if bounded ≠ m.mobile then .ok ({ m with mobile := bounded }, true)
        else .ok (m, changed)

/-- `update_member` (source lines 483-626). -/
def updateMember (cfg : Cfg) (origin : Origin) (member_type : Option MemberType)
    (first_name last_name date_of_birth email address mobile : Option Str)
    (now : Nat) : Op Unit := do
  let who ← ensureSignedOp origin
  let member_id ← okOr (← getA2M who) .MemberNotFound
  let m0 ← okOr (← getMembers member_id) .MemberNotFound
  ensureOp (m0.created_by = who) .NotMemberOwner
  let old_email := m0.email
  let (m1, c1) := updMemberTypeStep m0 false member_type
  let (m2, c2) ← liftE (updFirstNameStep cfg m1 c1 first_name)
  let (m3, c3) ← liftE (updLastNameStep cfg m2 c2 last_name)
  let (m4, c4) ← liftP (updDobStep m3 c3 date_of_birth)
  let (m5, c5, new_email) ← updEmailStep cfg member_id m4 c4 email
  let (m6, c6) ← liftE (updAddressStep cfg m5 c5 address)
  let (m7, profile_changed) ← liftE (updMobileStep cfg m6 c6 mobile)
  if profile_changed then do
    let member := { m7 with kyc_status := .Unapproved, updated_at := now }
    putMembers member_id member
    let previous_email := if new_email ≠ old_email then some old_email else none
    depositEvent (.MemberUpdated member_id who previous_email new_email)
  else pure ()

/-- The `if let Some(photo) = photo_hash` assignment of `submit_kyc`
(source lines 651-653). -/
def photoUpdate (ph : Option Hash) (old : Option Hash) : Option Hash :=
  match ph with
  | some photo => some photo
  | none => old

/-- `submit_kyc` (source lines 629-667). -/
def submitKyc (origin : Origin) (kyc_hash : Hash) (photo_hash : Option Hash)
    (now : Nat) : Op Unit := do
  let who ← ensureSignedOp origin
  let member_id ← okOr (← getA2M who) .MemberNotFound
  let m ← okOr (← getMembers member_id) .MemberNotFound
  ensureOp (m.created_by = who) .NotMemberOwner
  let member :=
    { m with kyc_hash := some kyc_hash,
             photo_hash := photoUpdate photo_hash m.photo_hash,
             updated_at := now }
  putMembers member_id member
  depositEvent (.KycSubmitted member_id who kyc_hash)

/-- `update_kyc_status` (source lines 672-702): any signed caller, no ownership
check, unconditional transition. -/
def updateKycStatus (origin : Origin) (member_id : MemberUuid) (new_status : KycStatus)
    (now : Nat) : Op Unit := do
  let who ← ensureSignedOp origin
  let m ← okOr (← getMembers member_id) .MemberNotFound
  let old_status := m.kyc_status
  let member := { m with kyc_status := new_status, updated_at := now }
  putMembers member_id member
  depositEvent (.KycStatusUpdated member_id who old_status new_status)

/-- `admin_update_kyc_status` (source lines 707-738): root only; the event's
`updated_by` is the member's own `created_by` (the source's placeholder). -/
def adminUpdateKycStatus (origin : Origin) (member_id : MemberUuid)
    (new_status : KycStatus) (now : Nat) : Op Unit := do
  ensureRootOp origin
  let m ← okOr (← getMembers member_id) .MemberNotFound
  let old_status := m.kyc_status
  let member := { m with kyc_status := new_status, updated_at := now }
  putMembers member_id member
  depositEvent (.KycStatusUpdated member_id member.created_by old_status new_status)

/-! ### The call surface, dispatch and reachability -/

/-- One call to the pallet's member-facing dispatchables, with its arguments. -/
inductive Call where
  | register (origin : Origin) (member_type : MemberType)
      (first_name last_name date_of_birth email address mobile : Str)
  | getMember (origin : Origin)
  | update (origin : Origin) (member_type : Option MemberType)
      (first_name last_name date_of_birth email address mobile : Option Str)
  | submitKyc (origin : Origin) (kyc_hash : Hash) (photo_hash : Option Hash)
  | updateKyc (origin : Origin) (member_id : MemberUuid) (new_status : KycStatus)
  | adminUpdateKyc (origin : Origin) (member_id : MemberUuid) (new_status : KycStatus)
  deriving DecidableEq, Repr

/-- Raw execution of one call over storage at block time `now`. -/
def exec (cfg : Cfg) (s : PalletState) (c : Call) (now : Nat) : OpOut Unit :=
  match c with
  | .register o mt fn ln dob em ad mo => registerMember cfg o mt fn ln dob em ad mo now s
  | .getMember o => getMemberCall o s
  | .update o mt fn ln dob em ad mo => updateMember cfg o mt fn ln dob em ad mo now s
  | .submitKyc o kh ph => submitKyc o kh ph now s
  | .updateKyc o id st => updateKycStatus o id st now s
  | .adminUpdateKyc o id st => adminUpdateKycStatus o id st now s

/-- Modelled from the spec: the transaction-execution framework enclosing every
dispatchable (FRAME's transactional storage layer, not part of src/) commits the
written state on success and discards every partial write on error, returning the
pre-state ("the entire state transition is discarded on any error", spec §5/§7).
A panic aborts the block entirely (`none`). -/
def dispatchCall (cfg : Cfg) (s : PalletState) (c : Call) (now : Nat) :
    Option (PalletState × Option Err) :=
  match exec cfg s c now with
  | .ok _ s' => some (s', none)
  | .err e _ => some (s, some e)
  | .panicked _ => none

/-- States reachable from genesis by successful calls (failed calls are rolled
back by `dispatchCall` and leave the state unchanged, so only `ok` runs extend
reachability). -/
inductive Reachable (cfg : Cfg) : PalletState → Prop where
  | init : Reachable cfg initState
  | step {s s' : PalletState} (c : Call) (now : Nat) (h : Reachable cfg s)
      (hok : exec cfg s c now = .ok () s') : Reachable cfg s'

/-! ### Mock configuration -/

/-- The concrete bounds used by the mock runtime (mock.rs lines 38-43). -/
def mockCfg : Cfg := ⟨50, 50, 100, 200, 20⟩

/-! ### The specification-side email predicate (C7) -/

/-- The spec's acceptance condition (§4.6 Email): exactly one at-sign (captured
by the unique decomposition into an at-sign-free local part and domain part);
local part 1-64 characters from the local charset, no leading, trailing or
consecutive dots; domain part 1-253 characters from the domain charset,
containing at least one dot, with no leading or trailing dot or hyphen. -/
def emailOkSpec (s : Str) : Prop :=
  ∃ l d : Str, s = l ++ '@' :: d ∧ '@' ∉ l ∧ '@' ∉ d ∧
    1 ≤ l.length ∧ l.length ≤ 64 ∧
    (∀ c ∈ l, isLocalChar c = true) ∧
    l.head? ≠ some '.' ∧ l.getLast? ≠ some '.' ∧
    (¬ ∃ pre post : Str, l = pre ++ '.' :: '.' :: post) ∧
    1 ≤ d.length ∧ d.length ≤ 253 ∧
    (∀ c ∈ d, isDomainChar c = true) ∧
    '.' ∈ d ∧
    d.head? ≠ some '.' ∧ d.getLast? ≠ some '.' ∧
    d.head? ≠ some '-' ∧ d.getLast? ≠ some '-'

/-- A sample member record used by concrete witnesses: account 7, registered at
block 5 with email a@b.c. -/
def wMem : Member :=
  { member_id := (7, 5)
    member_type := .General
    first_name := []
    last_name := []
    date_of_birth := []
    email := ['a', '@', 'b', '.', 'c']
    address := []
    mobile := []
    kyc_status := .Unapproved
    photo_hash := none
    kyc_hash := none
    created_at := 5
    updated_at := 5
    created_by := 7 }

/-- A sample one-member state used by concrete witnesses. -/
def wState : PalletState :=
  { members := [((7, 5), wMem)]
    accountToMember := [(7, (7, 5))]
    memberByEmail := [(['a', '@', 'b', '.', 'c'], (7, 5))]
    memberByIndex := [(0, (7, 5))]
    memberCount := 1
    events := [] }

/-- The sample state with the member's KYC approved. -/
def wStateApproved : PalletState :=
  { wState with members := [((7, 5), { wMem with kyc_status := .Approved })] }

/-- At least one supplied field differs from its stored value (the condition
under which `profile_changed` ends up true in a successful update). -/
def someFieldDiffers (m : Member) (omt : Option MemberType)
    (ofn oln odob oem oad omo : Option Str) : Prop :=
  (∃ v, omt = some v ∧ v ≠ m.member_type) ∨ (∃ v, ofn = some v ∧ v ≠ m.first_name) ∨
  (∃ v, oln = some v ∧ v ≠ m.last_name) ∨ (∃ v, odob = some v ∧ v ≠ m.date_of_birth) ∨
  (∃ v, oem = some v ∧ v ≠ m.email) ∨ (∃ v, oad = some v ∧ v ≠ m.address) ∨
  (∃ v, omo = some v ∧ v ≠ m.mobile)

/-- The working member record after the seven field branches of a successful
update, with the KYC reset and timestamp bump applied. -/
def appliedMember (m0 : Member) (omt : Option MemberType)
    (ofn oln odob oem oad omo : Option Str) (now : Nat) : Member :=
  { member_id := m0.member_id
    member_type := omt.getD m0.member_type
    first_name := ofn.getD m0.first_name
    last_name := oln.getD m0.last_name
    date_of_birth := odob.getD m0.date_of_birth
    email := oem.getD m0.email
    address := oad.getD m0.address
    mobile := omo.getD m0.mobile
    kyc_status := .Unapproved
    photo_hash := m0.photo_hash
    kyc_hash := m0.kyc_hash
    created_at := m0.created_at
    updated_at := now
    created_by := m0.created_by }

/-! ### Index-consistency invariants -/

/-- C2's index-consistency statement exactly as claimed: AccountToMember and
MemberByEmail mirror member existence, MemberByIndex covers exactly the keys
0..MemberCount-1 with ids present in Members, and MemberCount equals the number
of entries in Members. -/
def ConsistentClaimed (s : PalletState) : Prop :=
  (∀ a id, lookupA s.accountToMember a = some id ↔
     ∃ m, lookupA s.members id = some m ∧ m.member_id = id ∧ m.created_by = a) ∧
  (∀ e id, lookupA s.memberByEmail e = some id ↔
     ∃ m, lookupA s.members id = some m ∧ m.email = e) ∧
  (∀ i, (∃ id, lookupA s.memberByIndex i = some id) ↔ i < s.memberCount) ∧
  (∀ i id, lookupA s.memberByIndex i = some id → ∃ m, lookupA s.members id = some m) ∧
  s.memberCount = s.members.length

/-- Index consistency as the code actually maintains it: identical to the
claimed statement except at the u32 boundary, because `MemberCount` is stored as
a u32 and bumped with `saturating_add(1)` — after the 2^32-th successful
registration the counter sticks at u32::MAX while Members keeps growing and
MemberByIndex retains the key u32::MAX. -/
def ConsistentAmended (s : PalletState) : Prop :=
  (∀ a id, lookupA s.accountToMember a = some id ↔
     ∃ m, lookupA s.members id = some m ∧ m.member_id = id ∧ m.created_by = a) ∧
  (∀ e id, lookupA s.memberByEmail e = some id ↔
     ∃ m, lookupA s.members id = some m ∧ m.email = e) ∧
  (∀ i, (∃ id, lookupA s.memberByIndex i = some id) ↔
     i < min s.members.length (u32Max + 1)) ∧
  (∀ i id, lookupA s.memberByIndex i = some id → ∃ m, lookupA s.members id = some m) ∧
  s.memberCount = min s.members.length u32Max

/-- Every stored member's record carries its own storage key. -/
def KeyedId (s : PalletState) : Prop :=
  ∀ id m, lookupA s.members id = some m → m.member_id = id

/-- The symbolic-hash preimage property: a member stored under uuid
(account, timestamp) was created by that account. -/
def UuidCreator (s : PalletState) : Prop :=
  ∀ a t m, lookupA s.members (a, t) = some m → m.created_by = a

/-- The inductive invariant of reachable states. -/
def Inv (s : PalletState) : Prop := ConsistentAmended s ∧ KeyedId s ∧ UuidCreator s

/-! ### The stored registration record -/

/-- The member record a successful registration stores. -/
def regMember (who : AccountId) (now : Nat) (mt : MemberType)
    (fn ln dob em ad mo : Str) : Member :=
  { member_id := (who, now)
    member_type := mt
    first_name := fn
    last_name := ln
    date_of_birth := dob
    email := em
    address := ad
    mobile := mo
    kyc_status := .Unapproved
    photo_hash := none
    kyc_hash := none
    created_at := now
    updated_at := now
    created_by := who }

/-! ### Concrete reachable states for witnesses -/

/-- The member stored by the witness registration (account 7 at block 5). -/
def wrMem : Member := regMember 7 5 .General
  ['J', 'o'] ['D', 'o'] ['2', '0', '0', '0', '-', '0', '1', '-', '0', '1']
  ['a', '@', 'b', '.', 'c'] ['a', 'd'] ['+', '1', '2', '3', '4', '5', '6', '7']

/-- The state after one successful registration from genesis. -/
def wrState : PalletState :=
  { members := [((7, 5), wrMem)]
    accountToMember := [(7, (7, 5))]
    memberByEmail := [(['a', '@', 'b', '.', 'c'], (7, 5))]
    memberByIndex := [(0, (7, 5))]
    memberCount := 1
    events := [.MemberRegistered (7, 5) 7 ['a', '@', 'b', '.', 'c']] }

/-- The member stored by the second witness registration (account 8 at block 6). -/
def wrMem2 : Member := regMember 8 6 .Professional
  ['A', 'l'] ['B', 'o'] ['1', '9', '9', '9', '-', '1', '2', '-', '3', '1']
  ['b', '@', 'c', '.', 'd'] ['x'] ['1', '2', '3', '4', '5', '6', '7']

/-- The state after two successful registrations from genesis. -/
def wrState2 : PalletState :=
  { members := [((7, 5), wrMem), ((8, 6), wrMem2)]
    accountToMember := [(7, (7, 5)), (8, (8, 6))]
    memberByEmail := [(['a', '@', 'b', '.', 'c'], (7, 5)), (['b', '@', 'c', '.', 'd'], (8, 6))]
    memberByIndex := [(0, (7, 5)), (1, (8, 6))]
    memberCount := 2
    events := [.MemberRegistered (7, 5) 7 ['a', '@', 'b', '.', 'c'],
               .MemberRegistered (8, 6) 8 ['b', '@', 'c', '.', 'd']] }

/-! ### C2 counterexample: the u32 counter saturates after 2^32 registrations -/

/-- A configuration with all length bounds 64 (any bounds ≥ 16 work). -/
def cfg64 : Cfg := ⟨64, 64, 64, 64, 64⟩

/-- Fixed valid date of birth for the registration chain. -/
def cDob : Str := ['2', '0', '0', '0', '-', '0', '1', '-', '0', '1']

/-- Fixed valid mobile number for the registration chain. -/
def cMob : Str := ['+', '1', '2', '3', '4', '5', '6', '7']

/-- Decimal digit characters of n (least significant first). -/
def natChars (n : Nat) : Str := (Nat.digits 10 n).map (fun d => Char.ofNat (48 + d))

/-- A distinct valid email address per account: u<digits>@x.y. -/
def natEmail (n : Nat) : Str := ('u' :: natChars n) ++ '@' :: ['x', '.', 'y']

/-- The member stored by the n-th chain registration (account n at block 0). -/
def chainMember (n : Nat) : Member :=
  regMember n 0 .General ['f'] ['l'] cDob (natEmail n) ['a'] cMob

/-- The state after n successful chain registrations: account k registers with
email u<k>@x.y at block 0, for k = 0, 1, .... -/
def chainState : Nat → PalletState
  | 0 => initState
  | n + 1 =>
    let s := chainState n
    { s with
      members := insertA s.members (n, 0) (chainMember n),
      accountToMember := insertA s.accountToMember n (n, 0),
      memberByEmail := insertA s.memberByEmail (natEmail n) (n, 0),
      memberByIndex := insertA s.memberByIndex s.memberCount (n, 0),
      memberCount := satAdd1 s.memberCount,
      events := s.events ++ [.MemberRegistered (n, 0) n (natEmail n)] }

/-! ## Theorems

Supporting lemmas first (association-list maps, characters, counting and
splitting), then the per-claim results. -/

theorem lookupA_insertA {α β : Type} [DecidableEq α] (l : List (α × β)) (a : α) (b : β)
    (x : α) : lookupA (insertA l a b) x = if a = x then some b else lookupA l x := by
  induction l with
  | nil => by_cases hx : a = x <;> simp [insertA, lookupA, hx]
  | cons p rest ih =>
    obtain ⟨k, v⟩ := p
    by_cases hk : k = a
    · subst hk
      by_cases hx : k = x <;> simp [insertA, lookupA, hx]
    · by_cases hx : k = x
      · subst hx
        have hax : ¬ a = k := fun h => hk h.symm
        simp [insertA, lookupA, hk, hax]
      · simp [insertA, lookupA, hk, hx, ih]

theorem lookupA_removeA {α β : Type} [DecidableEq α] (l : List (α × β)) (a : α)
    (x : α) : lookupA (removeA l a) x = if a = x then none else lookupA l x := by
  induction l with
  | nil => by_cases hx : a = x <;> simp [removeA, lookupA, hx]
  | cons p rest ih =>
    obtain ⟨k, v⟩ := p
    by_cases hk : k = a
    · subst hk
      by_cases hx : k = x
      · subst hx
        simp [removeA, ih]
      · simp [removeA, lookupA, hx, ih]
    · by_cases hx : k = x
      · subst hx
        have hax : ¬ a = k := fun h => hk h.symm
        simp [removeA, lookupA, hk, hax]
      · simp [removeA, lookupA, hk, hx, ih]

theorem insertA_length_present {α β : Type} [DecidableEq α] (l : List (α × β)) (a : α)
    (b b' : β) (h : lookupA l a = some b') : (insertA l a b).length = l.length := by
  induction l with
  | nil => simp [lookupA] at h
  | cons p rest ih =>
    obtain ⟨k, v⟩ := p
    by_cases hk : k = a
    · subst hk
      simp [insertA]
    · simp only [lookupA, if_neg hk] at h
      simp [insertA, if_neg hk, ih h]

theorem insertA_length_absent {α β : Type} [DecidableEq α] (l : List (α × β)) (a : α)
    (b : β) (h : lookupA l a = none) : (insertA l a b).length = l.length + 1 := by
  induction l with
  | nil => simp [insertA]
  | cons p rest ih =>
    obtain ⟨k, v⟩ := p
    by_cases hk : k = a
    · subst hk
      simp [lookupA] at h
    · simp only [lookupA, if_neg hk] at h
      simp [insertA, if_neg hk, ih h]

theorem Op_bind_apply {α β : Type} (x : Op α) (f : α → Op β) (s : PalletState) :
    (x >>= f) s = match x s with
      | .ok a s' => f a s'
      | .err e s' => .err e s'
      | .panicked s' => .panicked s' := rfl

theorem Op_pure_apply {α : Type} (a : α) (s : PalletState) :
    (pure a : Op α) s = .ok a s := rfl

theorem utf8Size_one_of_ascii (c : Char) (h : c.toNat ≤ 127) : c.utf8Size = 1 := by
  have hv : c.val ≤ UInt32.ofNatCore 0x7F (by decide) := by
    change c.val.toBitVec ≤ _
    rw [BitVec.le_def]
    exact h
  unfold Char.utf8Size
  rw [if_pos hv]

theorem isLocalChar_ascii {c : Char} (h : isLocalChar c = true) : c.toNat ≤ 127 := by
  by_cases h46 : c = '.'
  · subst h46; decide
  by_cases h95 : c = '_'
  · subst h95; decide
  by_cases h45 : c = '-'
  · subst h45; decide
  by_cases h43 : c = '+'
  · subst h43; decide
  simp only [isLocalChar, isAsciiAlphanumericC, isAsciiDigitC, Bool.or_eq_true,
    Bool.and_eq_true, decide_eq_true_eq, beq_iff_eq, h46, h95, h45, h43,
    or_false, false_or] at h
  omega

theorem isDomainChar_ascii {c : Char} (h : isDomainChar c = true) : c.toNat ≤ 127 := by
  by_cases h46 : c = '.'
  · subst h46; decide
  by_cases h45 : c = '-'
  · subst h45; decide
  simp only [isDomainChar, isAsciiAlphanumericC, isAsciiDigitC, Bool.or_eq_true,
    Bool.and_eq_true, decide_eq_true_eq, beq_iff_eq, h46, h45,
    or_false, false_or] at h
  omega

theorem utf8Len_nil : utf8Len [] = 0 := rfl

theorem utf8Len_cons (c : Char) (cs : Str) : utf8Len (c :: cs) = c.utf8Size + utf8Len cs := by
  simp [utf8Len]

theorem utf8Len_eq_length_of_ascii {l : Str} (h : ∀ c ∈ l, c.toNat ≤ 127) :
    utf8Len l = l.length := by
  induction l with
  | nil => rfl
  | cons c cs ih =>
    rw [utf8Len_cons, utf8Size_one_of_ascii c (h c (by simp)), List.length_cons,
      ih (fun x hx => h x (by simp [hx]))]
    omega

theorem count_one_decomp {s : Str} (h : s.count '@' = 1) :
    ∃ l d : Str, s = l ++ '@' :: d ∧ '@' ∉ l ∧ '@' ∉ d := by
  induction s with
  | nil => simp at h
  | cons c cs ih =>
    rw [List.count_cons] at h
    by_cases hc : c = '@'
    · subst hc
      have h0 : cs.count '@' = 0 := by simp at h; omega
      exact ⟨[], cs, rfl, by simp, List.count_eq_zero.mp h0⟩
    · have hne : (c == '@') = false := by simp [hc]
      rw [hne] at h
      simp only [Nat.add_zero, if_false, Bool.false_eq_true] at h
      obtain ⟨l, d, hdec, hl, hd⟩ := ih h
      refine ⟨c :: l, d, by rw [hdec]; rfl, ?_, hd⟩
      intro hm
      rcases List.mem_cons.mp hm with h' | h'
      · exact hc h'.symm
      · exact hl h'

theorem count_append_one (l d : Str) (hl : '@' ∉ l) (hd : '@' ∉ d) :
    (l ++ '@' :: d).count '@' = 1 := by
  rw [List.count_append, List.count_cons]
  rw [List.count_eq_zero.mpr hl, List.count_eq_zero.mpr hd]
  simp

theorem splitAtChar_no_occur {d : Str} (hd : '@' ∉ d) : splitAtChar '@' d = [d] := by
  induction d with
  | nil => rfl
  | cons c cs ih =>
    have hc : ¬ c = '@' := fun h => hd (by simp [h])
    have hcs : '@' ∉ cs := fun h => hd (by simp [h])
    simp [splitAtChar, hc, ih hcs]

theorem splitAtChar_decomp (l d : Str) (hl : '@' ∉ l) (hd : '@' ∉ d) :
    splitAtChar '@' (l ++ '@' :: d) = [l, d] := by
  induction l with
  | nil => simp [splitAtChar, splitAtChar_no_occur hd]
  | cons c cs ih =>
    have hc : ¬ c = '@' := fun h => hl (by simp [h])
    have hcs : '@' ∉ cs := fun h => hl (by simp [h])
    simp [splitAtChar, hc, ih hcs]

theorem hasConsecDots_iff (l : Str) :
    hasConsecDots l = true ↔ ∃ pre post : Str, l = pre ++ '.' :: '.' :: post := by
  induction l with
  | nil =>
    simp only [hasConsecDots]
    constructor
    · intro h; exact absurd h (by simp)
    · rintro ⟨pre, post, h⟩
      have := congrArg List.length h
      simp at this
      omega
  | cons c cs ih =>
    cases cs with
    | nil =>
      simp only [hasConsecDots]
      constructor
      · intro h; exact absurd h (by simp)
      · rintro ⟨pre, post, h⟩
        have := congrArg List.length h
        simp at this
        omega
    | cons c2 rest =>
      simp only [hasConsecDots, Bool.or_eq_true, Bool.and_eq_true, beq_iff_eq]
      constructor
      · rintro (⟨h1, h2⟩ | h)
        · exact ⟨[], rest, by simp [h1, h2]⟩
        · obtain ⟨pre, post, hdec⟩ := ih.mp h
          exact ⟨c :: pre, post, by simp [hdec]⟩
      · rintro ⟨pre, post, hdec⟩
        cases pre with
        | nil =>
          simp at hdec
          exact Or.inl ⟨hdec.1, hdec.2.1⟩
        | cons p ps =>
          simp at hdec
          exact Or.inr (ih.mpr ⟨ps, post, hdec.2⟩)

theorem emailChecks_ok_iff (l d : Str) : emailChecks l d = .ok () ↔
    ((l ≠ [] ∧ utf8Len l ≤ 64) ∧ (l.head? ≠ some '.' ∧ l.getLast? ≠ some '.') ∧
      ¬ hasConsecDots l = true ∧ (d ≠ [] ∧ utf8Len d ≤ 253) ∧ '.' ∈ d ∧
      (d.head? ≠ some '.' ∧ d.getLast? ≠ some '.') ∧
      (d.head? ≠ some '-' ∧ d.getLast? ≠ some '-') ∧
      l.all isLocalChar = true ∧ d.all isDomainChar = true) := by
  unfold emailChecks
  split_ifs with h1 h2 h3 h4 h5 h6 h7 h8 h9 <;> simp_all

theorem emailChecks_ok_or_err (l d : Str) :
    emailChecks l d = .ok () ∨ emailChecks l d = .error .InvalidEmailFormat := by
  unfold emailChecks
  split_ifs <;> simp

theorem validate_email_eq_checks (l d : Str) (hl : '@' ∉ l) (hd : '@' ∉ d) :
    validate_email (l ++ '@' :: d) = emailChecks l d := by
  rw [validate_email]
  rw [if_neg (by simp [count_append_one l d hl hd])]
  simp [splitAtChar_decomp l d hl hd, List.getD]

theorem validate_email_ok_iff (s : Str) : validate_email s = .ok () ↔ emailOkSpec s := by
  constructor
  · intro h
    by_cases hc : s.count '@' = 1
    · obtain ⟨l, d, rfl, hl, hd⟩ := count_one_decomp hc
      rw [validate_email_eq_checks l d hl hd] at h
      obtain ⟨h1, h2, h3, h4, h5, h6, h7, h8, h9⟩ := (emailChecks_ok_iff l d).mp h
      have hlchars : ∀ c ∈ l, isLocalChar c = true := List.all_eq_true.mp h8
      have hdchars : ∀ c ∈ d, isDomainChar c = true := List.all_eq_true.mp h9
      refine ⟨l, d, rfl, hl, hd, ?_, ?_, hlchars, h2.1, h2.2, ?_, ?_, ?_, hdchars,
        h5, h6.1, h6.2, h7.1, h7.2⟩
      · exact List.length_pos.mpr h1.1
      · rw [← utf8Len_eq_length_of_ascii (fun c hcm => isLocalChar_ascii (hlchars c hcm))]
        exact h1.2
      · intro hcd
        exact h3 ((hasConsecDots_iff l).mpr hcd)
      · exact List.length_pos.mpr h4.1
      · rw [← utf8Len_eq_length_of_ascii (fun c hcm => isDomainChar_ascii (hdchars c hcm))]
        exact h4.2
    · rw [validate_email] at h
      simp [hc] at h
  · rintro ⟨l, d, rfl, hl, hd, h1, h2, hlchars, h3, h4, h5, h6, h7, hdchars, h8, h9,
      h10, h11, h12⟩
    have hlen : utf8Len l = l.length :=
      utf8Len_eq_length_of_ascii (fun c hcm => isLocalChar_ascii (hlchars c hcm))
    have hdlen : utf8Len d = d.length :=
      utf8Len_eq_length_of_ascii (fun c hcm => isDomainChar_ascii (hdchars c hcm))
    rw [validate_email_eq_checks l d hl hd]
    refine (emailChecks_ok_iff l d).mpr
      ⟨⟨List.length_pos.mp h1, by rw [hlen]; exact h2⟩, ⟨h3, h4⟩,
        fun hx => h5 ((hasConsecDots_iff l).mp hx),
        ⟨List.length_pos.mp h6, by rw [hdlen]; exact h7⟩, h8, ⟨h9, h10⟩, ⟨h11, h12⟩,
        List.all_eq_true.mpr hlchars, List.all_eq_true.mpr hdchars⟩

/-- C7: validate_email accepts a (decoded) byte string iff it has exactly one
at-sign, a local part of 1-64 characters from the charset A-Za-z0-9._-+ with no
leading, trailing or consecutive dots, and a domain part of 1-253 characters
from the charset A-Za-z0-9.- containing at least one dot and with no leading or
trailing dot or hyphen; every rejection is exactly InvalidEmailFormat. -/
theorem C7_validate_email_characterization :
    (∀ s : Str, validate_email s = .ok () ↔ emailOkSpec s) ∧
    (∀ s : Str, validate_email s = .ok () ∨ validate_email s = .error .InvalidEmailFormat) := by
  constructor
  · exact validate_email_ok_iff
  · intro s
    by_cases hc : s.count '@' = 1
    · obtain ⟨l, d, rfl, hl, hd⟩ := count_one_decomp hc
      rw [validate_email_eq_checks l d hl hd]
      exact emailChecks_ok_or_err l d
    · rw [validate_email]
      simp [hc]

/-- Witness for C7 at the concrete address a@b.c. -/
theorem C7_validate_email_witness :
    validate_email ['a', '@', 'b', '.', 'c'] = .ok () ∧ emailOkSpec ['a', '@', 'b', '.', 'c'] :=
  ⟨rfl, (C7_validate_email_characterization.1 ['a', '@', 'b', '.', 'c']).mp rfl⟩

/-! ### C6: validate_date is not total -/

/-- C6 (refuting the claimed totality): on the valid-UTF-8 input "éaaa-éé" of
byte length 10 but only 7 characters, the check `chars[4] == '-'` passes and the
short-circuited `chars[7]` is then evaluated out of bounds — a Rust panic, not an
InvalidDateFormat error; register_member given this date_of_birth (with
otherwise valid fields) panics the same way instead of returning an error. -/
theorem C6_validate_date_panics :
    validate_date ['é', 'a', 'a', 'a', '-', 'é', 'é'] = .panicked ∧
    exec mockCfg initState
      (.register (.signed 1) .General [] [] ['é', 'a', 'a', 'a', '-', 'é', 'é']
        ['a', '@', 'b', '.', 'c'] [] ['+', '1', '2', '3', '4', '5', '6', '7']) 0
      = .panicked initState := by
  constructor
  · decide
  · decide

/-! ### C9, C10: the KYC status operations; C5: rollback on error -/

theorem Op_ite_apply {α : Type} (c : Prop) [Decidable c] (t e : Op α) (s : PalletState) :
    (if c then t else e) s = if c then t s else e s := by
  split <;> rfl

/-- C9: update_kyc_status accepts any signed caller and any target status: when
member_id is present with record m it unconditionally succeeds, replacing only
kyc_status (with the requested status, for every one of the nine ordered status
pairs) and updated_at (with the current chain time), and emits KycStatusUpdated
with the old and new status; it fails, with MemberNotFound and untouched state,
exactly when member_id is absent. -/
theorem C9_update_kyc_status_characterization (cfg : Cfg) (s : PalletState)
    (who : AccountId) (member_id : MemberUuid) (new_status : KycStatus) (now : Nat) :
    (lookupA s.members member_id = none →
      exec cfg s (.updateKyc (.signed who) member_id new_status) now =
        .err .MemberNotFound s) ∧
    (∀ m, lookupA s.members member_id = some m →
      exec cfg s (.updateKyc (.signed who) member_id new_status) now =
        .ok () { s with
          members := insertA s.members member_id
            { m with kyc_status := new_status, updated_at := now },
          events := s.events ++ [.KycStatusUpdated member_id who m.kyc_status new_status] }) := by
  constructor
  · intro h
    show updateKycStatus (.signed who) member_id new_status now s = _
    unfold updateKycStatus
    simp [Op_bind_apply, Op_pure_apply, ensureSignedOp, getMembers, okOr, throwE, h]
  · intro m h
    show updateKycStatus (.signed who) member_id new_status now s = _
    unfold updateKycStatus
    simp [Op_bind_apply, Op_pure_apply, ensureSignedOp, getMembers, okOr, throwE, h,
      putMembers, depositEvent]

/-- Witness for C9: flipping an Approved member back to Unapproved succeeds for
an arbitrary signed caller (account 9, not the owner). -/
theorem C9_update_kyc_status_witness :
    lookupA wStateApproved.members (7, 5) = some { wMem with kyc_status := .Approved } ∧
    exec mockCfg wStateApproved (.updateKyc (.signed 9) (7, 5) .Unapproved) 11 =
      .ok () { wStateApproved with
               members := [((7, 5), { wMem with kyc_status := .Unapproved, updated_at := 11 })],
               events := [.KycStatusUpdated (7, 5) 9 .Approved .Unapproved] } :=
  ⟨by decide, by
    have h := (C9_update_kyc_status_characterization mockCfg wStateApproved
      9 (7, 5) .Unapproved 11).2 { wMem with kyc_status := .Approved } (by decide)
    rw [h]
    decide⟩

/-- C10: admin_update_kyc_status requires the root origin — every regular signed
account fails with BadOrigin and unchanged state — and on the root path it has
exactly the member-record effect of update_kyc_status (C9), except that the
emitted KycStatusUpdated names the member's own created_by account as
updated_by instead of any identity of the root caller. -/
theorem C10_admin_update_kyc_characterization (cfg : Cfg) (s : PalletState)
    (member_id : MemberUuid) (new_status : KycStatus) (now : Nat) :
    (∀ who : AccountId,
      exec cfg s (.adminUpdateKyc (.signed who) member_id new_status) now =
        .err .BadOrigin s) ∧
    (lookupA s.members member_id = none →
      exec cfg s (.adminUpdateKyc .root member_id new_status) now =
        .err .MemberNotFound s) ∧
    (∀ m, lookupA s.members member_id = some m →
      exec cfg s (.adminUpdateKyc .root member_id new_status) now =
        .ok () { s with
          members := insertA s.members member_id
            { m with kyc_status := new_status, updated_at := now },
          events := s.events ++
            [.KycStatusUpdated member_id m.created_by m.kyc_status new_status] }) := by
  refine ⟨?_, ?_, ?_⟩
  · intro who
    show adminUpdateKycStatus (.signed who) member_id new_status now s = _
    unfold adminUpdateKycStatus
    simp [Op_bind_apply, Op_pure_apply, ensureRootOp, throwE]
  · intro h
    show adminUpdateKycStatus .root member_id new_status now s = _
    unfold adminUpdateKycStatus
    simp [Op_bind_apply, Op_pure_apply, ensureRootOp, getMembers, okOr, throwE, h]
  · intro m h
    show adminUpdateKycStatus .root member_id new_status now s = _
    unfold adminUpdateKycStatus
    simp [Op_bind_apply, Op_pure_apply, ensureRootOp, getMembers, okOr, throwE, h,
      putMembers, depositEvent]

/-- Witness for C10 at a concrete one-member state: signed caller rejected, root
caller succeeds with the member's own account in the event. -/
theorem C10_admin_update_kyc_witness :
    exec mockCfg wState (.adminUpdateKyc (.signed 7) (7, 5) .Approved) 11 =
      .err .BadOrigin wState ∧
    exec mockCfg wState (.adminUpdateKyc .root (7, 5) .Approved) 11 =
      .ok () { wState with
               members := [((7, 5), { wMem with kyc_status := .Approved, updated_at := 11 })],
               events := [.KycStatusUpdated (7, 5) 7 .Unapproved .Approved] } :=
  ⟨(C10_admin_update_kyc_characterization mockCfg wState (7, 5) .Approved 11).1 7, by
    have h := (C10_admin_update_kyc_characterization mockCfg wState
      (7, 5) .Approved 11).2.2 wMem (by decide)
    rw [h]
    decide⟩

/-- C5: for every operation of the call surface and every input, when the raw
execution ends in an error the dispatch layer (modelled from the spec: FRAME's
transactional storage guarantees) discards every partial write: the observable
post-state is exactly the pre-state — event log included, so no event is
emitted — and the caller sees exactly the one error code. -/
theorem C5_rollback_on_error (cfg : Cfg) (s : PalletState) (c : Call) (now : Nat)
    (e : Err) (sp : PalletState) (h : exec cfg s c now = .err e sp) :
    dispatchCall cfg s c now = some (s, some e) := by
  unfold dispatchCall
  rw [h]

/-- Witness for C5: a failing update_member that had already rewritten the email
index before its mobile number was rejected — the raw run ends with a modified
partial state, dispatch still returns the untouched pre-state. -/
theorem C5_rollback_witness :
    exec mockCfg wState
      (.update (.signed 7) none none none none (some ['x', '@', 'b', '.', 'c'])
        none (some ['b', 'a', 'd'])) 9 =
      .err .InvalidMobileFormat
        { wState with memberByEmail := [(['x', '@', 'b', '.', 'c'], (7, 5))] } ∧
    dispatchCall mockCfg wState
      (.update (.signed 7) none none none none (some ['x', '@', 'b', '.', 'c'])
        none (some ['b', 'a', 'd'])) 9 =
      some (wState, some .InvalidMobileFormat) :=
  ⟨by decide,
   C5_rollback_on_error mockCfg wState
     (.update (.signed 7) none none none none (some ['x', '@', 'b', '.', 'c'])
       none (some ['b', 'a', 'd'])) 9 .InvalidMobileFormat
     { wState with memberByEmail := [(['x', '@', 'b', '.', 'c'], (7, 5))] } (by decide)⟩

/-! ### Characterization of update_member -/

theorem option_getD_ne_iff {α : Type} (o : Option α) (a : α) :
    o.getD a ≠ a ↔ ∃ v, o = some v ∧ v ≠ a := by
  cases o with
  | none => simp
  | some v => simp

theorem updMemberTypeStep_shape {m : Member} {c : Bool} {o : Option MemberType}
    {m' : Member} {c' : Bool} (h : updMemberTypeStep m c o = (m', c')) :
    m' = { m with member_type := o.getD m.member_type } ∧
    c' = (c || decide (o.getD m.member_type ≠ m.member_type)) := by
  cases o with
  | none => simp [updMemberTypeStep] at h; simp [← h.1, ← h.2]
  | some mt =>
    simp only [updMemberTypeStep] at h
    by_cases hne : mt ≠ m.member_type
    · rw [if_pos hne] at h
      simp only [Prod.mk.injEq] at h
      simp [← h.1, ← h.2, hne]
    · rw [if_neg hne] at h
      simp only [Prod.mk.injEq] at h
      push_neg at hne
      simp [← h.1, ← h.2, hne]

theorem updFirstNameStep_shape {cfg : Cfg} {m : Member} {c : Bool} {o : Option Str}
    {m' : Member} {c' : Bool} (h : updFirstNameStep cfg m c o = .ok (m', c')) :
    m' = { m with first_name := o.getD m.first_name } ∧
    c' = (c || decide (o.getD m.first_name ≠ m.first_name)) := by
  cases o with
  | none => simp [updFirstNameStep] at h; simp [← h.1, ← h.2]
  | some v =>
    simp only [updFirstNameStep, toBounded] at h
    by_cases hb : utf8Len v ≤ cfg.maxFirstNameLength
    · rw [if_pos hb] at h
      simp only at h
      by_cases hne : v ≠ m.first_name
      · rw [if_pos hne] at h
        simp only [Except.ok.injEq, Prod.mk.injEq] at h
        simp [← h.1, ← h.2, hne]
      · rw [if_neg hne] at h
        simp only [Except.ok.injEq, Prod.mk.injEq] at h
        push_neg at hne
        simp [← h.1, ← h.2, hne]
    · rw [if_neg hb] at h
      simp at h

theorem updLastNameStep_shape {cfg : Cfg} {m : Member} {c : Bool} {o : Option Str}
    {m' : Member} {c' : Bool} (h : updLastNameStep cfg m c o = .ok (m', c')) :
    m' = { m with last_name := o.getD m.last_name } ∧
    c' = (c || decide (o.getD m.last_name ≠ m.last_name)) := by
  cases o with
  | none => simp [updLastNameStep] at h; simp [← h.1, ← h.2]
  | some v =>
    simp only [updLastNameStep, toBounded] at h
    by_cases hb : utf8Len v ≤ cfg.maxLastNameLength
    · rw [if_pos hb] at h
      simp only at h
      by_cases hne : v ≠ m.last_name
      · rw [if_pos hne] at h
        simp only [Except.ok.injEq, Prod.mk.injEq] at h
        simp [← h.1, ← h.2, hne]
      · rw [if_neg hne] at h
        simp only [Except.ok.injEq, Prod.mk.injEq] at h
        push_neg at hne
        simp [← h.1, ← h.2, hne]
    · rw [if_neg hb] at h
      simp at h

theorem updDobStep_shape {m : Member} {c : Bool} {o : Option Str}
    {m' : Member} {c' : Bool} (h : updDobStep m c o = .ok (m', c')) :
    m' = { m with date_of_birth := o.getD m.date_of_birth } ∧
    c' = (c || decide (o.getD m.date_of_birth ≠ m.date_of_birth)) := by
  cases o with
  | none => simp [updDobStep] at h; simp [← h.1, ← h.2]
  | some v =>
    simp only [updDobStep, toBounded] at h
    cases hv : validate_date v with
    | ok a =>
      rw [hv] at h
      simp only [pseq] at h
      by_cases hb : utf8Len v ≤ 10
      · rw [if_pos hb] at h
        simp only at h
        by_cases hne : v ≠ m.date_of_birth
        · rw [if_pos hne] at h
          simp only [PRes.ok.injEq, Prod.mk.injEq] at h
          simp [← h.1, ← h.2, hne]
        · rw [if_neg hne] at h
          simp only [PRes.ok.injEq, Prod.mk.injEq] at h
          push_neg at hne
          simp [← h.1, ← h.2, hne]
      · rw [if_neg hb] at h
        simp at h
    | err e => rw [hv] at h; simp [pseq] at h
    | panicked => rw [hv] at h; simp [pseq] at h

theorem updAddressStep_shape {cfg : Cfg} {m : Member} {c : Bool} {o : Option Str}
    {m' : Member} {c' : Bool} (h : updAddressStep cfg m c o = .ok (m', c')) :
    m' = { m with address := o.getD m.address } ∧
    c' = (c || decide (o.getD m.address ≠ m.address)) := by
  cases o with
  | none => simp [updAddressStep] at h; simp [← h.1, ← h.2]
  | some v =>
    simp only [updAddressStep, toBounded] at h
    by_cases hb : utf8Len v ≤ cfg.maxAddressLength
    · rw [if_pos hb] at h
      simp only at h
      by_cases hne : v ≠ m.address
      · rw [if_pos hne] at h
        simp only [Except.ok.injEq, Prod.mk.injEq] at h
        simp [← h.1, ← h.2, hne]
      · rw [if_neg hne] at h
        simp only [Except.ok.injEq, Prod.mk.injEq] at h
        push_neg at hne
        simp [← h.1, ← h.2, hne]
    · rw [if_neg hb] at h
      simp at h

theorem updMobileStep_shape {cfg : Cfg} {m : Member} {c : Bool} {o : Option Str}
    {m' : Member} {c' : Bool} (h : updMobileStep cfg m c o = .ok (m', c')) :
    m' = { m with mobile := o.getD m.mobile } ∧
    c' = (c || decide (o.getD m.mobile ≠ m.mobile)) := by
  cases o with
  | none => simp [updMobileStep] at h; simp [← h.1, ← h.2]
  | some v =>
    simp only [updMobileStep, toBounded] at h
    cases hv : validate_mobile v with
    | ok a =>
      rw [hv] at h
      simp only at h
      by_cases hb : utf8Len v ≤ cfg.maxMobileLength
      · rw [if_pos hb] at h
        simp only at h
        by_cases hne : v ≠ m.mobile
        · rw [if_pos hne] at h
          simp only [Except.ok.injEq, Prod.mk.injEq] at h
          simp [← h.1, ← h.2, hne]
        · rw [if_neg hne] at h
          simp only [Except.ok.injEq, Prod.mk.injEq] at h
          push_neg at hne
          simp [← h.1, ← h.2, hne]
      · rw [if_neg hb] at h
        simp at h
    | error e => rw [hv] at h; simp at h

theorem updEmailStep_shape {cfg : Cfg} {id : MemberUuid} {m : Member} {c : Bool}
    {o : Option Str} {s : PalletState} {m' : Member} {c' : Bool} {ne : Str}
    {s' : PalletState} (h : updEmailStep cfg id m c o s = .ok (m', c', ne) s') :
    m' = { m with email := o.getD m.email } ∧
    c' = (c || decide (o.getD m.email ≠ m.email)) ∧
    ne = o.getD m.email ∧
    ((o.getD m.email = m.email ∧ s' = s) ∨
     (o.getD m.email ≠ m.email ∧
       (∀ j, lookupA s.memberByEmail (o.getD m.email) = some j → j = id) ∧
       s' = { s with memberByEmail :=
                insertA (removeA s.memberByEmail m.email) (o.getD m.email) id })) := by
  cases o with
  | none =>
    simp only [updEmailStep, Op_pure_apply, OpOut.ok.injEq, Prod.mk.injEq] at h
    obtain ⟨⟨hm, hc, hn⟩, hs⟩ := h
    simp [← hm, ← hc, ← hn, hs]
  | some v =>
    simp only [updEmailStep] at h
    cases hv : validate_email v with
    | error e => simp [Op_bind_apply, liftE, hv] at h
    | ok a =>
      simp only [Op_bind_apply, liftE, hv] at h
      by_cases hb : utf8Len v ≤ cfg.maxEmailLength
      · simp only [toBounded, if_pos hb] at h
        by_cases hne : v ≠ m.email
        · rw [if_pos hne] at h
          cases hex : lookupA s.memberByEmail v with
          | some ex =>
            simp only [Op_bind_apply, getEmailIdx, hex] at h
            by_cases hexid : ex = id
            · simp only [ensureOp, if_pos hexid, Op_pure_apply, Op_bind_apply,
                removeEmailIdx, putEmailIdx, OpOut.ok.injEq, Prod.mk.injEq] at h
              obtain ⟨⟨hm, hc, hn⟩, hs⟩ := h
              refine ⟨by simp [← hm], by simp [← hc, hne], by simp [← hn, hne], Or.inr ?_⟩
              refine ⟨by simp [hne], ?_, by rw [← hs]; simp⟩
              intro j hj
              rw [Option.getD_some] at hj
              rw [hex] at hj
              cases hj
              exact hexid
            · simp [ensureOp, if_neg hexid, throwE, Op_bind_apply] at h
          | none =>
            simp only [Op_bind_apply, getEmailIdx, hex, Op_pure_apply, removeEmailIdx,
              putEmailIdx, OpOut.ok.injEq, Prod.mk.injEq] at h
            obtain ⟨⟨hm, hc, hn⟩, hs⟩ := h
            refine ⟨by simp [← hm], by simp [← hc, hne], by simp [← hn, hne], Or.inr ?_⟩
            refine ⟨by simp [hne], ?_, by rw [← hs]; simp⟩
            intro j hj
            rw [Option.getD_some] at hj
            rw [hex] at hj
            cases hj
        · rw [if_neg hne] at h
          push_neg at hne
          simp only [Op_pure_apply, OpOut.ok.injEq, Prod.mk.injEq] at h
          obtain ⟨⟨hm, hc, hn⟩, hs⟩ := h
          simp [← hm, ← hc, ← hn, hs, hne]
      · simp [toBounded, if_neg hb, Op_bind_apply, liftE] at h

theorem updateMember_ok_master {cfg : Cfg} {o : Origin} {omt : Option MemberType}
    {ofn oln odob oem oad omo : Option Str} {now : Nat} {s s' : PalletState}
    (h : updateMember cfg o omt ofn oln odob oem oad omo now s = .ok () s') :
    ∃ who member_id m0, o = .signed who ∧
      lookupA s.accountToMember who = some member_id ∧
      lookupA s.members member_id = some m0 ∧
      m0.created_by = who ∧
      ((¬ someFieldDiffers m0 omt ofn oln odob oem oad omo ∧ s' = s) ∨
       (someFieldDiffers m0 omt ofn oln odob oem oad omo ∧
        ((oem.getD m0.email = m0.email ∧
          s' = { s with
                 members := insertA s.members member_id
                   (appliedMember m0 omt ofn oln odob oem oad omo now),
                 events := s.events ++ [.MemberUpdated member_id who none m0.email] }) ∨
         (oem.getD m0.email ≠ m0.email ∧
          (∀ j, lookupA s.memberByEmail (oem.getD m0.email) = some j → j = member_id) ∧
          s' = { s with
                 members := insertA s.members member_id
                   (appliedMember m0 omt ofn oln odob oem oad omo now),
                 memberByEmail := insertA (removeA s.memberByEmail m0.email)
                   (oem.getD m0.email) member_id,
                 events := s.events ++
                   [.MemberUpdated member_id who (some m0.email) (oem.getD m0.email)] })))) := by
  cases o with
  | root => simp [updateMember, Op_bind_apply, ensureSignedOp, throwE] at h
  | signed who =>
    unfold updateMember at h
    simp only [Op_bind_apply, ensureSignedOp, Op_pure_apply, getA2M] at h
    cases ha : lookupA s.accountToMember who with
    | none => rw [ha] at h; simp [okOr, throwE] at h
    | some member_id =>
      rw [ha] at h
      simp only [okOr, Op_pure_apply, getMembers] at h
      cases hm : lookupA s.members member_id with
      | none => rw [hm] at h; simp [okOr, throwE] at h
      | some m0 =>
        rw [hm] at h
        simp only [okOr, Op_pure_apply, ensureOp] at h
        by_cases howner : m0.created_by = who
        · rw [if_pos howner] at h
          simp only [Op_pure_apply] at h
          rcases hp1 : updMemberTypeStep m0 false omt with ⟨m1, c1⟩
          rw [hp1] at h
          obtain ⟨hm1, hc1⟩ := updMemberTypeStep_shape hp1
          cases hp2 : updFirstNameStep cfg m1 c1 ofn with
          | error e => rw [hp2] at h; simp [liftE] at h
          | ok p2 =>
            obtain ⟨m2, c2⟩ := p2
            rw [hp2] at h
            simp only [liftE] at h
            obtain ⟨hm2, hc2⟩ := updFirstNameStep_shape hp2
            cases hp3 : updLastNameStep cfg m2 c2 oln with
            | error e => rw [hp3] at h; simp [liftE] at h
            | ok p3 =>
              obtain ⟨m3, c3⟩ := p3
              rw [hp3] at h
              simp only [liftE] at h
              obtain ⟨hm3, hc3⟩ := updLastNameStep_shape hp3
              cases hp4 : updDobStep m3 c3 odob with
              | err e => rw [hp4] at h; simp [liftP] at h
              | panicked => rw [hp4] at h; simp [liftP] at h
              | ok p4 =>
                obtain ⟨m4, c4⟩ := p4
                rw [hp4] at h
                simp only [liftP] at h
                obtain ⟨hm4, hc4⟩ := updDobStep_shape hp4
                cases hp5 : updEmailStep cfg member_id m4 c4 oem s with
                | err e s5 => rw [hp5] at h; simp at h
                | panicked s5 => rw [hp5] at h; simp at h
                | ok p5 s5 =>
                  obtain ⟨m5, c5, nemail⟩ := p5
                  rw [hp5] at h
                  simp only [] at h
                  obtain ⟨hm5, hc5, hne, hs5⟩ := updEmailStep_shape hp5
                  cases hp6 : updAddressStep cfg m5 c5 oad with
                  | error e => rw [hp6] at h; simp [liftE] at h
                  | ok p6 =>
                    obtain ⟨m6, c6⟩ := p6
                    rw [hp6] at h
                    simp only [liftE] at h
                    obtain ⟨hm6, hc6⟩ := updAddressStep_shape hp6
                    cases hp7 : updMobileStep cfg m6 c6 omo with
                    | error e => rw [hp7] at h; simp [liftE] at h
                    | ok p7 =>
                      obtain ⟨m7, c7⟩ := p7
                      rw [hp7] at h
                      simp only [liftE] at h
                      obtain ⟨hm7, hc7⟩ := updMobileStep_shape hp7
                      refine ⟨who, member_id, m0, rfl, ha, hm, howner, ?_⟩
                      subst hne
                      subst hm1 hm2 hm3 hm4 hm5 hm6 hm7
                      subst hc1 hc2 hc3 hc4 hc5 hc6 hc7
                      dsimp only at h hs5 ⊢
                      split at h
                      · next heq =>
                        right
                        simp only [Bool.or_eq_true, Bool.false_eq_true, false_or, decide_eq_true_eq,
                          option_getD_ne_iff] at heq
                        have hch : someFieldDiffers m0 omt ofn oln odob oem oad omo := by
                          simp only [someFieldDiffers]
                          rcases heq with ((((((hd | hd) | hd) | hd) | hd) | hd) | hd)
                          · exact Or.inl hd
                          · exact Or.inr (Or.inl hd)
                          · exact Or.inr (Or.inr (Or.inl hd))
                          · exact Or.inr (Or.inr (Or.inr (Or.inl hd)))
                          · exact Or.inr (Or.inr (Or.inr (Or.inr (Or.inl hd))))
                          · exact Or.inr (Or.inr (Or.inr (Or.inr (Or.inr (Or.inl hd)))))
                          · exact Or.inr (Or.inr (Or.inr (Or.inr (Or.inr (Or.inr hd)))))
                        refine ⟨hch, ?_⟩
                        simp only [Op_bind_apply, putMembers, depositEvent,
                          Op_pure_apply, OpOut.ok.injEq, true_and] at h
                        rcases hs5 with ⟨he5, hs5eq⟩ | ⟨he5, huniq, hs5eq⟩
                        · left
                          refine ⟨he5, ?_⟩
                          rw [if_neg (by simp [he5])] at h
                          rw [← h, hs5eq]
                          simp only [appliedMember, he5]
                        · right
                          refine ⟨he5, huniq, ?_⟩
                          rw [if_pos he5] at h
                          rw [← h, hs5eq]
                          simp only [appliedMember]
                      · next heq =>
                        left
                        simp only [Bool.or_eq_true, Bool.false_eq_true, false_or, decide_eq_true_eq,
                          option_getD_ne_iff, not_or] at heq
                        obtain ⟨⟨⟨⟨⟨⟨n1, n2⟩, n3⟩, n4⟩, n5⟩, n6⟩, n7⟩ := heq
                        have e5eq : oem.getD m0.email = m0.email := by
                          by_contra hx
                          exact n5 ((option_getD_ne_iff oem m0.email).mp hx)
                        have hnch : ¬ someFieldDiffers m0 omt ofn oln odob oem oad omo := by
                          simp only [someFieldDiffers]
                          intro hx
                          rcases hx with hd | hd | hd | hd | hd | hd | hd
                          exacts [n1 hd, n2 hd, n3 hd, n4 hd, n5 hd, n6 hd, n7 hd]
                        refine ⟨hnch, ?_⟩
                        simp only [Op_pure_apply, OpOut.ok.injEq, true_and] at h
                        rcases hs5 with ⟨_, hs5eq⟩ | ⟨he5, _, _⟩
                        · rw [← h, hs5eq]
                        · exact absurd e5eq he5
        · rw [if_neg howner] at h
          simp [throwE] at h

/-! ### C3: KYC reset on edit; C4: no-op update -/

/-- C3: for every successful update_member call by a signed caller whose profile
resolves to record m0, if at least one supplied field differs from its stored
value then the post-state record has kyc_status Unapproved (whatever its
pre-state value, Approved included), updated_at equal to the current chain
time, and a MemberUpdated event is appended. -/
theorem C3_kyc_reset_on_edit (cfg : Cfg) (omt : Option MemberType)
    (ofn oln odob oem oad omo : Option Str) (now : Nat) (s s' : PalletState)
    (who : AccountId) (member_id : MemberUuid) (m0 : Member)
    (ha : lookupA s.accountToMember who = some member_id)
    (hm : lookupA s.members member_id = some m0)
    (hdiff : someFieldDiffers m0 omt ofn oln odob oem oad omo)
    (h : exec cfg s (.update (.signed who) omt ofn oln odob oem oad omo) now = .ok () s') :
    ∃ m', lookupA s'.members member_id = some m' ∧
      m'.kyc_status = .Unapproved ∧ m'.updated_at = now ∧
      ∃ prev nemail, s'.events = s.events ++ [.MemberUpdated member_id who prev nemail] := by
  simp only [exec] at h
  obtain ⟨who2, id2, m02, hw, ha2, hm2, howner, hcase⟩ := updateMember_ok_master h
  injection hw with hwi
  subst hwi
  have hid : member_id = id2 := by rw [ha] at ha2; exact Option.some.inj ha2
  subst hid
  have hm0 : m0 = m02 := by rw [hm] at hm2; exact Option.some.inj hm2
  subst hm0
  rcases hcase with ⟨hnd, _⟩ | ⟨_, hcase2⟩
  · exact absurd hdiff hnd
  · rcases hcase2 with ⟨_, hs'⟩ | ⟨_, _, hs'⟩ <;> subst hs'
    · exact ⟨appliedMember m0 omt ofn oln odob oem oad omo now,
        by simp [lookupA_insertA], rfl, rfl, none, m0.email, rfl⟩
    · exact ⟨appliedMember m0 omt ofn oln odob oem oad omo now,
        by simp [lookupA_insertA], rfl, rfl, some m0.email, oem.getD m0.email, rfl⟩

/-- Witness for C3: updating only the address of an Approved member resets the
KYC status and emits the update event. -/
theorem C3_kyc_reset_witness :
    ∃ m', lookupA (PalletState.members { wStateApproved with
        members := [((7, 5), { wMem with address := ['z'], updated_at := 9 })],
        events := [.MemberUpdated (7, 5) 7 none ['a', '@', 'b', '.', 'c']] }) (7, 5)
        = some m' ∧
      m'.kyc_status = .Unapproved ∧ m'.updated_at = 9 ∧
      ∃ prev nemail, PalletState.events { wStateApproved with
        members := [((7, 5), { wMem with address := ['z'], updated_at := 9 })],
        events := [.MemberUpdated (7, 5) 7 none ['a', '@', 'b', '.', 'c']] } =
        wStateApproved.events ++ [.MemberUpdated (7, 5) 7 prev nemail] :=
  C3_kyc_reset_on_edit mockCfg none none none none none (some ['z']) none 9
    wStateApproved
    { wStateApproved with
      members := [((7, 5), { wMem with address := ['z'], updated_at := 9 })],
      events := [.MemberUpdated (7, 5) 7 none ['a', '@', 'b', '.', 'c']] }
    7 (7, 5) { wMem with kyc_status := .Approved }
    (by decide) (by decide)
    (Or.inr (Or.inr (Or.inr (Or.inr (Or.inr (Or.inl ⟨['z'], rfl, by decide⟩))))))
    (by decide)

/-- C4: an update_member call by the profile owner in which every supplied field
equals its stored value (each passing validation and its length bound), or with
no fields supplied, succeeds and leaves the entire storage state — kyc_status,
updated_at and the event log included — exactly unchanged. -/
theorem C4_noop_update (cfg : Cfg) (omt : Option MemberType)
    (ofn oln odob oem oad omo : Option Str) (now : Nat) (s : PalletState)
    (who : AccountId) (member_id : MemberUuid) (m0 : Member)
    (ha : lookupA s.accountToMember who = some member_id)
    (hm : lookupA s.members member_id = some m0)
    (howner : m0.created_by = who)
    (h1 : omt = none ∨ omt = some m0.member_type)
    (h2 : ofn = none ∨ (ofn = some m0.first_name ∧
      utf8Len m0.first_name ≤ cfg.maxFirstNameLength))
    (h3 : oln = none ∨ (oln = some m0.last_name ∧
      utf8Len m0.last_name ≤ cfg.maxLastNameLength))
    (h4 : odob = none ∨ (odob = some m0.date_of_birth ∧
      validate_date m0.date_of_birth = .ok () ∧ utf8Len m0.date_of_birth ≤ 10))
    (h5 : oem = none ∨ (oem = some m0.email ∧
      validate_email m0.email = .ok () ∧ utf8Len m0.email ≤ cfg.maxEmailLength))
    (h6 : oad = none ∨ (oad = some m0.address ∧
      utf8Len m0.address ≤ cfg.maxAddressLength))
    (h7 : omo = none ∨ (omo = some m0.mobile ∧
      validate_mobile m0.mobile = .ok () ∧ utf8Len m0.mobile ≤ cfg.maxMobileLength)) :
    exec cfg s (.update (.signed who) omt ofn oln odob oem oad omo) now = .ok () s := by
  have e1 : updMemberTypeStep m0 false omt = (m0, false) := by
    rcases h1 with h1 | h1 <;> subst h1 <;> simp [updMemberTypeStep]
  have e2 : updFirstNameStep cfg m0 false ofn = .ok (m0, false) := by
    rcases h2 with h2 | ⟨h2, hb⟩
    · subst h2; rfl
    · subst h2; simp [updFirstNameStep, toBounded, hb]
  have e3 : updLastNameStep cfg m0 false oln = .ok (m0, false) := by
    rcases h3 with h3 | ⟨h3, hb⟩
    · subst h3; rfl
    · subst h3; simp [updLastNameStep, toBounded, hb]
  have e4 : updDobStep m0 false odob = .ok (m0, false) := by
    rcases h4 with h4 | ⟨h4, hv, hb⟩
    · subst h4; rfl
    · subst h4; simp [updDobStep, hv, pseq, toBounded, hb]
  have e5 : updEmailStep cfg member_id m0 false oem s = .ok (m0, false, m0.email) s := by
    rcases h5 with h5 | ⟨h5, hv, hb⟩
    · subst h5; rfl
    · subst h5
      show (updEmailStep cfg member_id m0 false (some m0.email)) s = _
      simp [updEmailStep, Op_bind_apply, liftE, hv, toBounded, hb, Op_pure_apply]
  have e6 : updAddressStep cfg m0 false oad = .ok (m0, false) := by
    rcases h6 with h6 | ⟨h6, hb⟩
    · subst h6; rfl
    · subst h6; simp [updAddressStep, toBounded, hb]
  have e7 : updMobileStep cfg m0 false omo = .ok (m0, false) := by
    rcases h7 with h7 | ⟨h7, hv, hb⟩
    · subst h7; rfl
    · subst h7; simp [updMobileStep, hv, toBounded, hb]
  simp only [exec]
  unfold updateMember
  simp only [Op_bind_apply, ensureSignedOp, Op_pure_apply, getA2M, ha, okOr,
    getMembers, hm, ensureOp, if_pos howner, e1, e2, e3, e4, e5, e6, e7,
    liftE, liftP]
  rfl

/-- Witness for C4: an update supplying the stored email and member type and
nothing else leaves the one-member state untouched and emits nothing. -/
theorem C4_noop_update_witness :
    exec mockCfg wState
      (.update (.signed 7) (some .General) none none none
        (some ['a', '@', 'b', '.', 'c']) none none) 9 = .ok () wState :=
  C4_noop_update mockCfg (some .General) none none none
    (some ['a', '@', 'b', '.', 'c']) none none 9 wState 7 (7, 5) wMem
    (by decide) (by decide) (by decide)
    (Or.inr (by decide)) (Or.inl rfl) (Or.inl rfl) (Or.inl rfl)
    (Or.inr ⟨by decide, rfl, by decide⟩) (Or.inl rfl) (Or.inl rfl)

theorem inv_init : Inv initState := by
  refine ⟨⟨?_, ?_, ?_, ?_, ?_⟩, ?_, ?_⟩ <;>
    simp [initState, lookupA, KeyedId, UuidCreator, u32Max]

/-- Invariant congruence: the invariant only mentions the five storage fields,
not the event log. -/
theorem inv_fields {s s' : PalletState} (hi : Inv s)
    (h1 : s'.members = s.members) (h2 : s'.accountToMember = s.accountToMember)
    (h3 : s'.memberByEmail = s.memberByEmail) (h4 : s'.memberByIndex = s.memberByIndex)
    (h5 : s'.memberCount = s.memberCount) : Inv s' := by
  obtain ⟨⟨c1, c2, c3, c4, c5⟩, k, u⟩ := hi
  exact ⟨⟨by rw [h1, h2]; exact c1, by rw [h1, h3]; exact c2, by rw [h1, h4]; exact c3,
    by rw [h1, h4]; exact c4, by rw [h1, h5]; exact c5⟩,
    by rw [KeyedId, h1]; exact k, by rw [UuidCreator, h1]; exact u⟩

/-- Replacing a stored member by a record with the same member_id, created_by
and email (what submit_kyc, the KYC updates and an email-preserving
update_member do) keeps the invariant. -/
theorem inv_insert_same_key {s s' : PalletState} (hi : Inv s) {id : MemberUuid}
    {m0 : Member} (m' : Member) (hm : lookupA s.members id = some m0)
    (hid : m'.member_id = m0.member_id) (hcb : m'.created_by = m0.created_by)
    (hem : m'.email = m0.email)
    (h1 : s'.members = insertA s.members id m')
    (h2 : s'.accountToMember = s.accountToMember)
    (h3 : s'.memberByEmail = s.memberByEmail)
    (h4 : s'.memberByIndex = s.memberByIndex)
    (h5 : s'.memberCount = s.memberCount) : Inv s' := by
  obtain ⟨⟨c1, c2, c3, c4, c5⟩, k, u⟩ := hi
  have hkey : m0.member_id = id := k id m0 hm
  refine ⟨⟨?_, ?_, ?_, ?_, ?_⟩, ?_, ?_⟩
  · intro a idq
    rw [h2, h1, lookupA_insertA]
    by_cases hq : id = idq
    · subst hq
      rw [if_pos rfl]
      rw [c1 a id]
      constructor
      · rintro ⟨m, hmq, hmid, hmcb⟩
        rw [hm] at hmq
        cases Option.some.inj hmq
        exact ⟨m', rfl, by rw [hid, hmid], by rw [hcb, hmcb]⟩
      · rintro ⟨m, hmq, hmid, hmcb⟩
        cases Option.some.inj hmq
        exact ⟨m0, hm, hkey, by rw [← hcb, hmcb]⟩
    · rw [if_neg hq]
      exact c1 a idq
  · intro e idq
    rw [h3, h1, lookupA_insertA]
    by_cases hq : id = idq
    · subst hq
      rw [if_pos rfl]
      rw [c2 e id]
      constructor
      · rintro ⟨m, hmq, hme⟩
        rw [hm] at hmq
        cases Option.some.inj hmq
        exact ⟨m', rfl, by rw [hem, hme]⟩
      · rintro ⟨m, hmq, hme⟩
        cases Option.some.inj hmq
        exact ⟨m0, hm, by rw [← hem, hme]⟩
    · rw [if_neg hq]
      exact c2 e idq
  · intro i
    rw [h4, h1]
    rw [insertA_length_present s.members id m' m0 hm]
    exact c3 i
  · intro i idq hq
    rw [h4] at hq
    rw [h1, lookupA_insertA]
    by_cases hqq : id = idq
    · exact ⟨m', by rw [if_pos hqq]⟩
    · rw [if_neg hqq]
      exact c4 i idq hq
  · rw [h5, h1, insertA_length_present s.members id m' m0 hm]
    exact c5
  · intro idq m hq
    rw [h1, lookupA_insertA] at hq
    by_cases hqq : id = idq
    · rw [if_pos hqq] at hq
      cases Option.some.inj hq
      rw [hid, hkey, hqq]
    · rw [if_neg hqq] at hq
      exact k idq m hq
  · intro a t m hq
    rw [h1, lookupA_insertA] at hq
    by_cases hqq : id = (a, t)
    · rw [if_pos hqq] at hq
      cases Option.some.inj hq
      rw [hcb]
      exact u a t m0 (by rw [← hqq]; exact hm)
    · rw [if_neg hqq] at hq
      exact u a t m hq

/-- An email-changing update_member (uniqueness pre-checked, old index entry
removed, new one inserted, member record rewritten in place) keeps the
invariant. -/
theorem inv_update_email_change {s s' : PalletState} (hi : Inv s) {id : MemberUuid}
    {m0 : Member} (m' : Member) {v : Str} (hm : lookupA s.members id = some m0)
    (hid : m'.member_id = m0.member_id) (hcb : m'.created_by = m0.created_by)
    (hem : m'.email = v) (hne : v ≠ m0.email)
    (huniq : ∀ j, lookupA s.memberByEmail v = some j → j = id)
    (h1 : s'.members = insertA s.members id m')
    (h2 : s'.accountToMember = s.accountToMember)
    (h3 : s'.memberByEmail = insertA (removeA s.memberByEmail m0.email) v id)
    (h4 : s'.memberByIndex = s.memberByIndex)
    (h5 : s'.memberCount = s.memberCount) : Inv s' := by
  obtain ⟨⟨c1, c2, c3, c4, c5⟩, k, u⟩ := hi
  have hkey : m0.member_id = id := k id m0 hm
  have hvnone : lookupA s.memberByEmail v = none := by
    cases hv : lookupA s.memberByEmail v with
    | none => rfl
    | some j =>
      have hj := huniq j hv
      subst hj
      obtain ⟨m, hmq, hme⟩ := (c2 v j).mp hv
      rw [hm] at hmq
      cases Option.some.inj hmq
      exact absurd hme.symm hne
  refine ⟨⟨?_, ?_, ?_, ?_, ?_⟩, ?_, ?_⟩
  · intro a idq
    rw [h2, h1, lookupA_insertA]
    by_cases hq : id = idq
    · subst hq
      rw [if_pos rfl, c1 a id]
      constructor
      · rintro ⟨m, hmq, hmid, hmcb⟩
        rw [hm] at hmq
        cases Option.some.inj hmq
        exact ⟨m', rfl, by rw [hid, hmid], by rw [hcb, hmcb]⟩
      · rintro ⟨m, hmq, hmid, hmcb⟩
        cases Option.some.inj hmq
        exact ⟨m0, hm, hkey, by rw [← hcb, hmcb]⟩
    · rw [if_neg hq]
      exact c1 a idq
  · intro e idq
    rw [h3, h1, lookupA_insertA, lookupA_removeA]
    by_cases hev : v = e
    · subst hev
      rw [if_pos rfl]
      constructor
      · intro hsome
        cases Option.some.inj hsome
        exact ⟨m', by rw [lookupA_insertA, if_pos rfl], hem⟩
      · rintro ⟨m, hmq, hme⟩
        rw [lookupA_insertA] at hmq
        by_cases hq : id = idq
        · rw [hq]
        · rw [if_neg hq] at hmq
          have := (c2 v idq).mpr ⟨m, hmq, hme⟩
          rw [hvnone] at this
          cases this
    · rw [if_neg hev]
      by_cases hold : m0.email = e
      · rw [if_pos hold]
        constructor
        · intro hsome
          cases hsome
        · rintro ⟨m, hmq, hme⟩
          rw [lookupA_insertA] at hmq
          by_cases hq : id = idq
          · rw [if_pos hq] at hmq
            cases Option.some.inj hmq
            exact absurd (by rw [← hme, hem]) hev
          · rw [if_neg hq] at hmq
            have h1q := (c2 e idq).mpr ⟨m, hmq, hme⟩
            have h2q := (c2 e id).mpr ⟨m0, hm, hold⟩
            rw [h1q] at h2q
            exact absurd (Option.some.inj h2q) (fun hx => hq hx.symm)
      · rw [if_neg hold]
        rw [c2 e idq]
        constructor
        · rintro ⟨m, hmq, hme⟩
          rw [lookupA_insertA]
          by_cases hq : id = idq
          · subst hq
            rw [hm] at hmq
            cases Option.some.inj hmq
            exact absurd hme hold
          · rw [if_neg hq]
            exact ⟨m, hmq, hme⟩
        · rintro ⟨m, hmq, hme⟩
          rw [lookupA_insertA] at hmq
          by_cases hq : id = idq
          · rw [if_pos hq] at hmq
            cases Option.some.inj hmq
            exact absurd (by rw [← hme, hem]) hev
          · rw [if_neg hq] at hmq
            exact ⟨m, hmq, hme⟩
  · intro i
    rw [h4, h1, insertA_length_present s.members id m' m0 hm]
    exact c3 i
  · intro i idq hq
    rw [h4] at hq
    rw [h1, lookupA_insertA]
    by_cases hqq : id = idq
    · exact ⟨m', by rw [if_pos hqq]⟩
    · rw [if_neg hqq]
      exact c4 i idq hq
  · rw [h5, h1, insertA_length_present s.members id m' m0 hm]
    exact c5
  · intro idq m hq
    rw [h1, lookupA_insertA] at hq
    by_cases hqq : id = idq
    · rw [if_pos hqq] at hq
      cases Option.some.inj hq
      rw [hid, hkey, hqq]
    · rw [if_neg hqq] at hq
      exact k idq m hq
  · intro a t m hq
    rw [h1, lookupA_insertA] at hq
    by_cases hqq : id = (a, t)
    · rw [if_pos hqq] at hq
      cases Option.some.inj hq
      rw [hcb]
      exact u a t m0 (by rw [← hqq]; exact hm)
    · rw [if_neg hqq] at hq
      exact u a t m hq

/-- A successful registration (fresh account, fresh email, fresh derived uuid,
all four indices extended, counter bumped with saturation) keeps the
invariant. -/
theorem inv_register {s s' : PalletState} (hi : Inv s) {who : AccountId} {now : Nat}
    {newM : Member} (ha : lookupA s.accountToMember who = none)
    (hemn : lookupA s.memberByEmail newM.email = none)
    (hid : newM.member_id = (who, now)) (hcb : newM.created_by = who)
    (h1 : s'.members = insertA s.members (who, now) newM)
    (h2 : s'.accountToMember = insertA s.accountToMember who (who, now))
    (h3 : s'.memberByEmail = insertA s.memberByEmail newM.email (who, now))
    (h4 : s'.memberByIndex = insertA s.memberByIndex s.memberCount (who, now))
    (h5 : s'.memberCount = satAdd1 s.memberCount) : Inv s' := by
  obtain ⟨⟨c1, c2, c3, c4, c5⟩, k, u⟩ := hi
  have hfresh : lookupA s.members (who, now) = none := by
    cases hx : lookupA s.members (who, now) with
    | none => rfl
    | some mx =>
      have hcbx : mx.created_by = who := u who now mx hx
      have hkx : mx.member_id = (who, now) := k _ mx hx
      have hax := (c1 who (who, now)).mpr ⟨mx, hx, hkx, hcbx⟩
      rw [ha] at hax
      cases hax
  have hlen : s'.members.length = s.members.length + 1 := by
    rw [h1, insertA_length_absent s.members (who, now) newM hfresh]
  refine ⟨⟨?_, ?_, ?_, ?_, ?_⟩, ?_, ?_⟩
  · intro a idq
    rw [h2, h1, lookupA_insertA, lookupA_insertA]
    by_cases haq : who = a
    · subst haq
      rw [if_pos rfl]
      constructor
      · intro hsome
        cases Option.some.inj hsome
        exact ⟨newM, by rw [if_pos rfl], hid, hcb⟩
      · rintro ⟨m, hmq, hmid, hmcb⟩
        by_cases hq : (who, now) = idq
        · rw [hq]
        · rw [if_neg hq] at hmq
          have := (c1 who idq).mpr ⟨m, hmq, hmid, hmcb⟩
          rw [ha] at this
          cases this
    · rw [if_neg haq]
      constructor
      · intro hv
        obtain ⟨m, hmq, hmid, hmcb⟩ := (c1 a idq).mp hv
        by_cases hq : (who, now) = idq
        · rw [← hq] at hmq
          rw [hfresh] at hmq
          cases hmq
        · rw [if_neg hq]
          exact ⟨m, hmq, hmid, hmcb⟩
      · rintro ⟨m, hmq, hmid, hmcb⟩
        by_cases hq : (who, now) = idq
        · rw [if_pos hq] at hmq
          cases Option.some.inj hmq
          exact absurd (by rw [← hmcb, hcb]) haq
        · rw [if_neg hq] at hmq
          exact (c1 a idq).mpr ⟨m, hmq, hmid, hmcb⟩
  · intro e idq
    rw [h3, h1, lookupA_insertA, lookupA_insertA]
    by_cases hev : newM.email = e
    · subst hev
      rw [if_pos rfl]
      constructor
      · intro hsome
        cases Option.some.inj hsome
        exact ⟨newM, by rw [if_pos rfl], rfl⟩
      · rintro ⟨m, hmq, hme⟩
        by_cases hq : (who, now) = idq
        · rw [hq]
        · rw [if_neg hq] at hmq
          have := (c2 newM.email idq).mpr ⟨m, hmq, hme⟩
          rw [hemn] at this
          cases this
    · rw [if_neg hev]
      constructor
      · intro hv
        obtain ⟨m, hmq, hme⟩ := (c2 e idq).mp hv
        by_cases hq : (who, now) = idq
        · rw [← hq] at hmq
          rw [hfresh] at hmq
          cases hmq
        · rw [if_neg hq]
          exact ⟨m, hmq, hme⟩
      · rintro ⟨m, hmq, hme⟩
        by_cases hq : (who, now) = idq
        · rw [if_pos hq] at hmq
          cases Option.some.inj hmq
          exact absurd hme hev
        · rw [if_neg hq] at hmq
          exact (c2 e idq).mpr ⟨m, hmq, hme⟩
  · intro i
    rw [h4, hlen, lookupA_insertA]
    by_cases hq : s.memberCount = i
    · rw [if_pos hq]
      rw [c5] at hq
      constructor
      · intro _
        omega
      · intro _
        exact ⟨(who, now), rfl⟩
    · rw [if_neg hq]
      rw [c3 i]
      rw [c5] at hq
      omega
  · intro i idq hq
    rw [h4, lookupA_insertA] at hq
    rw [h1, lookupA_insertA]
    by_cases hqq : (who, now) = idq
    · exact ⟨newM, by rw [if_pos hqq]⟩
    · rw [if_neg hqq]
      by_cases hqi : s.memberCount = i
      · rw [if_pos hqi] at hq
        exact absurd (Option.some.inj hq) hqq
      · rw [if_neg hqi] at hq
        exact c4 i idq hq
  · rw [h5, hlen, c5]
    unfold satAdd1 u32Max
    omega
  · intro idq m hq
    rw [h1, lookupA_insertA] at hq
    by_cases hqq : (who, now) = idq
    · rw [if_pos hqq] at hq
      cases Option.some.inj hq
      rw [hid, hqq]
    · rw [if_neg hqq] at hq
      exact k idq m hq
  · intro a t m hq
    rw [h1, lookupA_insertA] at hq
    by_cases hqq : (who, now) = (a, t)
    · rw [if_pos hqq] at hq
      cases Option.some.inj hq
      rw [hcb]
      exact (Prod.mk.injEq who now a t ▸ hqq).1
    · rw [if_neg hqq] at hq
      exact u a t m hq

theorem registerMember_ok_shape {cfg : Cfg} {o : Origin} {mt : MemberType}
    {fn ln dob em ad mo : Str} {now : Nat} {s s' : PalletState}
    (h : registerMember cfg o mt fn ln dob em ad mo now s = .ok () s') :
    ∃ who, o = .signed who ∧
      lookupA s.accountToMember who = none ∧
      validate_email em = .ok () ∧
      lookupA s.memberByEmail em = none ∧
      s' = { s with
             members := insertA s.members (who, now) (regMember who now mt fn ln dob em ad mo),
             accountToMember := insertA s.accountToMember who (who, now),
             memberByEmail := insertA s.memberByEmail em (who, now),
             memberByIndex := insertA s.memberByIndex s.memberCount (who, now),
             memberCount := satAdd1 s.memberCount,
             events := s.events ++ [.MemberRegistered (who, now) who em] } := by
  cases o with
  | root => simp [registerMember, Op_bind_apply, ensureSignedOp, throwE] at h
  | signed who =>
    refine ⟨who, rfl, ?_⟩
    unfold registerMember at h
    simp only [Op_bind_apply, ensureSignedOp, Op_pure_apply, getA2M, ensureOp] at h
    by_cases ha : lookupA s.accountToMember who = none
    · rw [if_pos ha] at h
      refine ⟨ha, ?_⟩
      simp only [Op_pure_apply] at h
      cases hv : validate_email em with
      | error e => rw [hv] at h; simp [liftE] at h
      | ok a =>
        cases a
        rw [hv] at h
        simp only [liftE] at h
        refine ⟨rfl, ?_⟩
        cases hvm : validate_mobile mo with
        | error e => rw [hvm] at h; simp [liftE] at h
        | ok a2 =>
          rw [hvm] at h
          simp only [liftE] at h
          cases hvd : validate_date dob with
          | err e => rw [hvd] at h; simp [liftP] at h
          | panicked => rw [hvd] at h; simp [liftP] at h
          | ok a3 =>
            rw [hvd] at h
            simp only [liftP] at h
            simp only [toBounded] at h
            by_cases b1 : utf8Len fn ≤ cfg.maxFirstNameLength
            · rw [if_pos b1] at h
              simp only [liftE] at h
              by_cases b2 : utf8Len ln ≤ cfg.maxLastNameLength
              · rw [if_pos b2] at h
                simp only [liftE] at h
                by_cases b3 : utf8Len dob ≤ 10
                · rw [if_pos b3] at h
                  simp only [liftE] at h
                  by_cases b4 : utf8Len em ≤ cfg.maxEmailLength
                  · rw [if_pos b4] at h
                    simp only [liftE] at h
                    by_cases b5 : utf8Len ad ≤ cfg.maxAddressLength
                    · rw [if_pos b5] at h
                      simp only [liftE] at h
                      by_cases b6 : utf8Len mo ≤ cfg.maxMobileLength
                      · rw [if_pos b6] at h
                        simp only [liftE, getEmailIdx, ensureOp] at h
                        by_cases hemn : lookupA s.memberByEmail em = none
                        · rw [if_pos hemn] at h
                          refine ⟨hemn, ?_⟩
                          simp only [Op_pure_apply, getMemberCount, putMembers,
                            putA2M, putEmailIdx, putMemberByIndex, putMemberCount,
                            depositEvent, genUuid, OpOut.ok.injEq, true_and] at h
                          rw [← h]
                          rfl
                        · rw [if_neg hemn] at h
                          simp [throwE] at h
                      · rw [if_neg b6] at h
                        simp [liftE] at h
                    · rw [if_neg b5] at h
                      simp [liftE] at h
                  · rw [if_neg b4] at h
                    simp [liftE] at h
                · rw [if_neg b3] at h
                  simp [liftE] at h
              · rw [if_neg b2] at h
                simp [liftE] at h
            · rw [if_neg b1] at h
              simp [liftE] at h
    · rw [if_neg ha] at h
      simp [throwE] at h

theorem getMemberCall_ok_shape {o : Origin} {s s' : PalletState}
    (h : getMemberCall o s = .ok () s') :
    ∃ ev, s' = { s with events := s.events ++ [ev] } := by
  cases o with
  | root => simp [getMemberCall, Op_bind_apply, ensureSignedOp, throwE] at h
  | signed who =>
    unfold getMemberCall at h
    simp only [Op_bind_apply, ensureSignedOp, Op_pure_apply, getA2M] at h
    cases ha : lookupA s.accountToMember who with
    | none => rw [ha] at h; simp [okOr, throwE] at h
    | some member_id =>
      rw [ha] at h
      simp only [okOr, Op_pure_apply, getMembers] at h
      cases hm : lookupA s.members member_id with
      | none => rw [hm] at h; simp [okOr, throwE] at h
      | some m =>
        rw [hm] at h
        simp only [okOr, Op_pure_apply, ensureOp] at h
        by_cases howner : m.created_by = who
        · rw [if_pos howner] at h
          simp only [Op_pure_apply, depositEvent, OpOut.ok.injEq, true_and] at h
          exact ⟨_, h.symm⟩
        · rw [if_neg howner] at h
          simp [throwE] at h

theorem submitKyc_ok_shape {o : Origin} {kh : Hash} {ph : Option Hash} {now : Nat}
    {s s' : PalletState} (h : submitKyc o kh ph now s = .ok () s') :
    ∃ who member_id m0, o = .signed who ∧
      lookupA s.accountToMember who = some member_id ∧
      lookupA s.members member_id = some m0 ∧ m0.created_by = who ∧
      s' = { s with
             members := insertA s.members member_id
               { m0 with kyc_hash := some kh,
                         photo_hash := photoUpdate ph m0.photo_hash,
                         updated_at := now },
             events := s.events ++ [.KycSubmitted member_id who kh] } := by
  cases o with
  | root => simp [submitKyc, Op_bind_apply, ensureSignedOp, throwE] at h
  | signed who =>
    unfold submitKyc at h
    simp only [Op_bind_apply, ensureSignedOp, Op_pure_apply, getA2M] at h
    cases ha : lookupA s.accountToMember who with
    | none => rw [ha] at h; simp [okOr, throwE] at h
    | some member_id =>
      rw [ha] at h
      simp only [okOr, Op_pure_apply, getMembers] at h
      cases hm : lookupA s.members member_id with
      | none => rw [hm] at h; simp [okOr, throwE] at h
      | some m0 =>
        rw [hm] at h
        simp only [okOr, Op_pure_apply, ensureOp] at h
        by_cases howner : m0.created_by = who
        · rw [if_pos howner] at h
          simp only [Op_pure_apply, putMembers, depositEvent, Op_bind_apply,
            OpOut.ok.injEq, true_and] at h
          exact ⟨who, member_id, m0, rfl, ha, hm, howner, h.symm⟩
        · rw [if_neg howner] at h
          simp [throwE] at h

theorem updateKycStatus_ok_shape {o : Origin} {member_id : MemberUuid}
    {st : KycStatus} {now : Nat} {s s' : PalletState}
    (h : updateKycStatus o member_id st now s = .ok () s') :
    ∃ who m0, o = .signed who ∧
      lookupA s.members member_id = some m0 ∧
      s' = { s with
             members := insertA s.members member_id
               { m0 with kyc_status := st, updated_at := now },
             events := s.events ++ [.KycStatusUpdated member_id who m0.kyc_status st] } := by
  cases o with
  | root => simp [updateKycStatus, Op_bind_apply, ensureSignedOp, throwE] at h
  | signed who =>
    unfold updateKycStatus at h
    simp only [Op_bind_apply, ensureSignedOp, Op_pure_apply, getMembers] at h
    cases hm : lookupA s.members member_id with
    | none => rw [hm] at h; simp [okOr, throwE] at h
    | some m0 =>
      rw [hm] at h
      simp only [okOr, Op_pure_apply, putMembers, depositEvent, Op_bind_apply,
        OpOut.ok.injEq, true_and] at h
      exact ⟨who, m0, rfl, rfl, h.symm⟩

theorem adminUpdateKycStatus_ok_shape {o : Origin} {member_id : MemberUuid}
    {st : KycStatus} {now : Nat} {s s' : PalletState}
    (h : adminUpdateKycStatus o member_id st now s = .ok () s') :
    ∃ m0, o = .root ∧
      lookupA s.members member_id = some m0 ∧
      s' = { s with
             members := insertA s.members member_id
               { m0 with kyc_status := st, updated_at := now },
             events := s.events ++
               [.KycStatusUpdated member_id m0.created_by m0.kyc_status st] } := by
  cases o with
  | signed who => simp [adminUpdateKycStatus, Op_bind_apply, ensureRootOp, throwE] at h
  | root =>
    unfold adminUpdateKycStatus at h
    simp only [Op_bind_apply, ensureRootOp, Op_pure_apply, getMembers] at h
    cases hm : lookupA s.members member_id with
    | none => rw [hm] at h; simp [okOr, throwE] at h
    | some m0 =>
      rw [hm] at h
      simp only [okOr, Op_pure_apply, putMembers, depositEvent, Op_bind_apply,
        OpOut.ok.injEq, true_and] at h
      exact ⟨m0, rfl, rfl, h.symm⟩

/-! ### The invariant holds in every reachable state -/

theorem reachable_inv {cfg : Cfg} {s : PalletState} (h : Reachable cfg s) : Inv s := by
  induction h with
  | init => exact inv_init
  | step c now hr hok ih =>
    cases c with
    | register o mt fn ln dob em ad mo =>
      simp only [exec] at hok
      obtain ⟨who, rfl, ha, hv, hemn, hs'⟩ := registerMember_ok_shape hok
      subst hs'
      exact inv_register ih ha hemn rfl rfl rfl rfl rfl rfl rfl
    | getMember o =>
      simp only [exec] at hok
      obtain ⟨ev, hs'⟩ := getMemberCall_ok_shape hok
      subst hs'
      exact inv_fields ih rfl rfl rfl rfl rfl
    | update o omt ofn oln odob oem oad omo =>
      simp only [exec] at hok
      obtain ⟨who, member_id, m0, rfl, ha, hm, howner, hcase⟩ := updateMember_ok_master hok
      rcases hcase with ⟨_, hs'⟩ | ⟨_, hcase2⟩
      · subst hs'
        exact ih
      · rcases hcase2 with ⟨hee, hs'⟩ | ⟨hee, huniq, hs'⟩
        · subst hs'
          exact inv_insert_same_key ih
            (appliedMember m0 omt ofn oln odob oem oad omo now) hm rfl rfl
            (by simp [appliedMember, hee]) rfl rfl rfl rfl rfl
        · subst hs'
          exact inv_update_email_change ih
            (appliedMember m0 omt ofn oln odob oem oad omo now) hm rfl rfl
            (by simp [appliedMember]) hee huniq rfl rfl rfl rfl rfl
    | submitKyc o kh ph =>
      simp only [exec] at hok
      obtain ⟨who, member_id, m0, rfl, ha, hm, howner, hs'⟩ := submitKyc_ok_shape hok
      subst hs'
      exact inv_insert_same_key ih
        { m0 with kyc_hash := some kh, photo_hash := photoUpdate ph m0.photo_hash,
                  updated_at := now } hm rfl rfl rfl rfl rfl rfl rfl rfl
    | updateKyc o member_id st =>
      simp only [exec] at hok
      obtain ⟨who, m0, rfl, hm, hs'⟩ := updateKycStatus_ok_shape hok
      subst hs'
      exact inv_insert_same_key ih { m0 with kyc_status := st, updated_at := now }
        hm rfl rfl rfl rfl rfl rfl rfl rfl
    | adminUpdateKyc o member_id st =>
      simp only [exec] at hok
      obtain ⟨m0, rfl, hm, hs'⟩ := adminUpdateKycStatus_ok_shape hok
      subst hs'
      exact inv_insert_same_key ih { m0 with kyc_status := st, updated_at := now }
        hm rfl rfl rfl rfl rfl rfl rfl rfl

theorem wrState_reachable : Reachable mockCfg wrState :=
  Reachable.step
    (.register (.signed 7) .General ['J', 'o'] ['D', 'o']
      ['2', '0', '0', '0', '-', '0', '1', '-', '0', '1'] ['a', '@', 'b', '.', 'c']
      ['a', 'd'] ['+', '1', '2', '3', '4', '5', '6', '7']) 5
    Reachable.init (by decide)

theorem wrState2_reachable : Reachable mockCfg wrState2 :=
  Reachable.step
    (.register (.signed 8) .Professional ['A', 'l'] ['B', 'o']
      ['1', '9', '9', '9', '-', '1', '2', '-', '3', '1'] ['b', '@', 'c', '.', 'd']
      ['x'] ['1', '2', '3', '4', '5', '6', '7']) 6
    wrState_reachable (by decide)

/-! ### C8: NotMemberOwner is unreachable in get_member -/

/-- C8: in every reachable state and for every signed caller, get_member never
fails with NotMemberOwner — the caller's mapping only ever resolves to a member
created by that caller — and it fails (necessarily with MemberNotFound) exactly
when the caller owns no profile. -/
theorem C8_get_member_no_owner_error (cfg : Cfg) (s : PalletState)
    (h : Reachable cfg s) (who : AccountId) (now : Nat) :
    (∀ st, exec cfg s (.getMember (.signed who)) now ≠ .err .NotMemberOwner st) ∧
    ((∃ st, exec cfg s (.getMember (.signed who)) now = .err .MemberNotFound st) ↔
      lookupA s.accountToMember who = none) := by
  obtain ⟨⟨c1, _, _, _, _⟩, _, _⟩ := reachable_inv h
  by_cases ha : lookupA s.accountToMember who = none
  · have heval : exec cfg s (.getMember (.signed who)) now = .err .MemberNotFound s := by
      simp [exec, getMemberCall, Op_bind_apply, ensureSignedOp, Op_pure_apply,
        getA2M, ha, okOr, throwE]
    constructor
    · intro st heq
      rw [heval] at heq
      simp at heq
    · exact ⟨fun _ => ha, fun _ => ⟨s, heval⟩⟩
  · obtain ⟨member_id, ha2⟩ : ∃ id, lookupA s.accountToMember who = some id := by
      cases hx : lookupA s.accountToMember who with
      | none => exact absurd hx ha
      | some id => exact ⟨id, rfl⟩
    obtain ⟨m, hm, hmid, hcb⟩ := (c1 who member_id).mp ha2
    have heval : exec cfg s (.getMember (.signed who)) now =
        .ok () { s with events := s.events ++
          [.MemberDataRetrieved member_id who m.member_type m.first_name m.last_name
            m.date_of_birth m.email m.address m.mobile m.photo_hash m.kyc_status
            m.kyc_hash m.created_at m.updated_at] } := by
      simp [exec, getMemberCall, Op_bind_apply, ensureSignedOp, Op_pure_apply,
        getA2M, ha2, okOr, getMembers, hm, ensureOp, hcb, depositEvent]
    constructor
    · intro st heq
      rw [heval] at heq
      simp at heq
    · constructor
      · rintro ⟨st, heq⟩
        rw [heval] at heq
        simp at heq
      · intro hnone
        exact absurd hnone ha

/-- Witness for C8 at the reachable one-member state, for a caller with no
profile. -/
theorem C8_get_member_witness :
    (∀ st, exec mockCfg wrState (.getMember (.signed 9)) 8 ≠ .err .NotMemberOwner st) ∧
    ((∃ st, exec mockCfg wrState (.getMember (.signed 9)) 8 = .err .MemberNotFound st) ↔
      lookupA wrState.accountToMember 9 = none) :=
  C8_get_member_no_owner_error mockCfg wrState wrState_reachable 9 8

/-! ### C1: uniqueness -/

theorem updFirstNameStep_succeeds (cfg : Cfg) (m : Member) (c : Bool) {o : Option Str}
    (hb : o = none ∨ ∃ w, o = some w ∧ utf8Len w ≤ cfg.maxFirstNameLength) :
    ∃ p, updFirstNameStep cfg m c o = .ok p := by
  rcases hb with rfl | ⟨w, rfl, hw⟩
  · exact ⟨(m, c), rfl⟩
  · by_cases hne : w ≠ m.first_name
    · exact ⟨({ m with first_name := w }, true), by simp [updFirstNameStep, toBounded, hw, hne]⟩
    · exact ⟨(m, c), by simp [updFirstNameStep, toBounded, hw, hne]⟩

theorem updLastNameStep_succeeds (cfg : Cfg) (m : Member) (c : Bool) {o : Option Str}
    (hb : o = none ∨ ∃ w, o = some w ∧ utf8Len w ≤ cfg.maxLastNameLength) :
    ∃ p, updLastNameStep cfg m c o = .ok p := by
  rcases hb with rfl | ⟨w, rfl, hw⟩
  · exact ⟨(m, c), rfl⟩
  · by_cases hne : w ≠ m.last_name
    · exact ⟨({ m with last_name := w }, true), by simp [updLastNameStep, toBounded, hw, hne]⟩
    · exact ⟨(m, c), by simp [updLastNameStep, toBounded, hw, hne]⟩

theorem updDobStep_succeeds (m : Member) (c : Bool) {o : Option Str}
    (hb : o = none ∨ ∃ w, o = some w ∧ validate_date w = .ok () ∧ utf8Len w ≤ 10) :
    ∃ p, updDobStep m c o = .ok p := by
  rcases hb with rfl | ⟨w, rfl, hv, hw⟩
  · exact ⟨(m, c), rfl⟩
  · by_cases hne : w ≠ m.date_of_birth
    · exact ⟨({ m with date_of_birth := w }, true),
        by simp [updDobStep, hv, pseq, toBounded, hw, hne]⟩
    · exact ⟨(m, c), by simp [updDobStep, hv, pseq, toBounded, hw, hne]⟩

/-- C1: in every reachable state no two distinct members share an owning account
or an email (and member ids, the storage keys, are distinct by construction);
register_member fails with MemberAlreadyExists whenever the caller's account is
bound, fails with EmailAlreadyExists whenever the account is fresh, the fields
are valid and bounded, but the email is bound; and update_member fails with
EmailAlreadyExists whenever a new valid bounded email is supplied that is bound
to a different member_id (earlier field branches succeeding). In each failure
case no storage write has happened when the error is raised. -/
theorem C1_uniqueness (cfg : Cfg) (s : PalletState) (h : Reachable cfg s) :
    (∀ id1 id2 m1 m2, lookupA s.members id1 = some m1 → lookupA s.members id2 = some m2 →
      id1 ≠ id2 → m1.created_by ≠ m2.created_by ∧ m1.email ≠ m2.email) ∧
    (∀ mt fn ln dob em ad mo now who,
      lookupA s.accountToMember who ≠ none →
      exec cfg s (.register (.signed who) mt fn ln dob em ad mo) now =
        .err .MemberAlreadyExists s) ∧
    (∀ mt fn ln dob em ad mo now who id2,
      lookupA s.accountToMember who = none →
      validate_email em = .ok () → validate_mobile mo = .ok () →
      validate_date dob = .ok () →
      utf8Len fn ≤ cfg.maxFirstNameLength → utf8Len ln ≤ cfg.maxLastNameLength →
      utf8Len dob ≤ 10 → utf8Len em ≤ cfg.maxEmailLength →
      utf8Len ad ≤ cfg.maxAddressLength → utf8Len mo ≤ cfg.maxMobileLength →
      lookupA s.memberByEmail em = some id2 →
      exec cfg s (.register (.signed who) mt fn ln dob em ad mo) now =
        .err .EmailAlreadyExists s) ∧
    (∀ omt ofn oln odob oem oad omo now who member_id m0 v id2,
      lookupA s.accountToMember who = some member_id →
      lookupA s.members member_id = some m0 → m0.created_by = who →
      (ofn = none ∨ ∃ w, ofn = some w ∧ utf8Len w ≤ cfg.maxFirstNameLength) →
      (oln = none ∨ ∃ w, oln = some w ∧ utf8Len w ≤ cfg.maxLastNameLength) →
      (odob = none ∨ ∃ w, odob = some w ∧ validate_date w = .ok () ∧ utf8Len w ≤ 10) →
      oem = some v → validate_email v = .ok () → utf8Len v ≤ cfg.maxEmailLength →
      v ≠ m0.email → lookupA s.memberByEmail v = some id2 → id2 ≠ member_id →
      exec cfg s (.update (.signed who) omt ofn oln odob oem oad omo) now =
        .err .EmailAlreadyExists s) := by
  obtain ⟨⟨c1, c2, c3, c4, c5⟩, k, u⟩ := reachable_inv h
  refine ⟨?_, ?_, ?_, ?_⟩
  · intro id1 id2 m1 m2 h1 h2 hne
    constructor
    · intro hcb
      have hb1 := (c1 m1.created_by id1).mpr ⟨m1, h1, k id1 m1 h1, rfl⟩
      have hb2 := (c1 m1.created_by id2).mpr ⟨m2, h2, k id2 m2 h2, hcb.symm⟩
      rw [hb1] at hb2
      exact hne (Option.some.inj hb2)
    · intro hem
      have hb1 := (c2 m1.email id1).mpr ⟨m1, h1, rfl⟩
      have hb2 := (c2 m1.email id2).mpr ⟨m2, h2, hem.symm⟩
      rw [hb1] at hb2
      exact hne (Option.some.inj hb2)
  · intro mt fn ln dob em ad mo now who ha
    simp only [exec]
    unfold registerMember
    simp only [Op_bind_apply, ensureSignedOp, Op_pure_apply, getA2M, ensureOp,
      if_neg ha, throwE]
  · intro mt fn ln dob em ad mo now who id2 ha hve hvm hvd b1 b2 b3 b4 b5 b6 hemb
    simp only [exec]
    unfold registerMember
    simp only [Op_bind_apply, ensureSignedOp, Op_pure_apply, getA2M, ensureOp,
      if_pos ha, hve, hvm, hvd, liftE, liftP, toBounded, if_pos b1, if_pos b2,
      if_pos b3, if_pos b4, if_pos b5, if_pos b6, getEmailIdx, hemb]
    simp [throwE]
  · intro omt ofn oln odob oem oad omo now who member_id m0 v id2 ha hm howner
      hfn hln hdob hoem hve hb hne hemb hne2
    subst hoem
    obtain ⟨⟨m2, c2x⟩, hp2⟩ :=
      updFirstNameStep_succeeds cfg
        ((updMemberTypeStep m0 false omt).1) ((updMemberTypeStep m0 false omt).2) hfn
    obtain ⟨⟨m3, c3x⟩, hp3⟩ := updLastNameStep_succeeds cfg m2 c2x hln
    obtain ⟨⟨m4, c4x⟩, hp4⟩ := updDobStep_succeeds m3 c3x hdob
    have he1 : (updMemberTypeStep m0 false omt).1.email = m0.email := by
      obtain ⟨hh, _⟩ := @updMemberTypeStep_shape m0 false omt
        (updMemberTypeStep m0 false omt).1 (updMemberTypeStep m0 false omt).2 rfl
      rw [hh]
    have he2 : m2.email = m0.email := by
      obtain ⟨hh, _⟩ := updFirstNameStep_shape hp2
      rw [hh]
      exact he1
    have he3 : m3.email = m0.email := by
      obtain ⟨hh, _⟩ := updLastNameStep_shape hp3
      rw [hh]
      exact he2
    have he4 : m4.email = m0.email := by
      obtain ⟨hh, _⟩ := updDobStep_shape hp4
      rw [hh]
      exact he3
    have hne4 : v ≠ m4.email := by rw [he4]; exact hne
    simp only [exec]
    unfold updateMember
    simp only [Op_bind_apply, ensureSignedOp, Op_pure_apply, getA2M, ha, okOr,
      getMembers, hm, ensureOp, if_pos howner, hp2, hp3, hp4, liftE, liftP]
    show (updEmailStep cfg member_id m4 c4x (some v) >>= _) s = _
    unfold updEmailStep
    simp only [Op_bind_apply, liftE, hve, toBounded, if_pos hb, if_pos hne4,
      getEmailIdx, hemb, ensureOp, if_neg hne2, throwE, Op_pure_apply]

/-- Witness for C1 at the reachable two-member state: the two members share
neither account nor email, and account 7's second registration fails with
MemberAlreadyExists. -/
theorem C1_uniqueness_witness :
    (lookupA wrState2.members (7, 5) = some wrMem ∧
     lookupA wrState2.members (8, 6) = some wrMem2 ∧
     wrMem.created_by ≠ wrMem2.created_by ∧ wrMem.email ≠ wrMem2.email) ∧
    exec mockCfg wrState2
      (.register (.signed 7) .General ['J', 'o'] ['D', 'o']
        ['2', '0', '0', '0', '-', '0', '1', '-', '0', '1'] ['c', '@', 'd', '.', 'e']
        ['a', 'd'] ['+', '1', '2', '3', '4', '5', '6', '7']) 9 =
      .err .MemberAlreadyExists wrState2 :=
  ⟨⟨by decide, by decide,
    ((C1_uniqueness mockCfg wrState2 wrState2_reachable).1 (7, 5) (8, 6) wrMem wrMem2
      (by decide) (by decide) (by decide)).1,
    ((C1_uniqueness mockCfg wrState2 wrState2_reachable).1 (7, 5) (8, 6) wrMem wrMem2
      (by decide) (by decide) (by decide)).2⟩,
   (C1_uniqueness mockCfg wrState2 wrState2_reachable).2.1
     .General ['J', 'o'] ['D', 'o'] ['2', '0', '0', '0', '-', '0', '1', '-', '0', '1']
     ['c', '@', 'd', '.', 'e'] ['a', 'd'] ['+', '1', '2', '3', '4', '5', '6', '7'] 9 7
     (by decide)⟩

/-! ### C2: index consistency -/

/-- C2 (amended): every reachable state satisfies index consistency as the code
maintains it — AccountToMember and MemberByEmail mirror member existence;
MemberByIndex covers exactly the keys 0..min(#members, 2^32)-1 with ids present
in Members; MemberCount = min(#members, 2^32-1) because the u32 counter is
bumped with saturating_add — and this coincides with the claimed statement
(MemberByIndex covers 0..MemberCount-1 and MemberCount = #members) in every
reachable state with at most u32::MAX members. -/
theorem C2_index_consistency (cfg : Cfg) (s : PalletState) (h : Reachable cfg s) :
    ConsistentAmended s ∧ (s.members.length ≤ u32Max → ConsistentClaimed s) := by
  obtain ⟨⟨c1, c2, c3, c4, c5⟩, _, _⟩ := reachable_inv h
  refine ⟨⟨c1, c2, c3, c4, c5⟩, fun hlen => ⟨c1, c2, ?_, c4, ?_⟩⟩
  · intro i
    rw [c3 i, c5]
    omega
  · rw [c5]
    omega

/-- Witness for C2 at the reachable two-member state. -/
theorem C2_index_consistency_witness :
    ConsistentAmended wrState2 ∧
    (wrState2.members.length ≤ u32Max → ConsistentClaimed wrState2) :=
  C2_index_consistency mockCfg wrState2 wrState2_reachable

theorem natChars_digits (n : Nat) : ∀ c ∈ natChars n, 48 ≤ c.toNat ∧ c.toNat ≤ 57 := by
  intro c hc
  simp only [natChars, List.mem_map] at hc
  obtain ⟨d, hd, rfl⟩ := hc
  have hdlt : d < 10 := Nat.digits_lt_base (by norm_num) hd
  interval_cases d <;> exact ⟨by decide, by decide⟩

theorem natChars_len_le (n : Nat) (hn : n < 10 ^ 10) : (natChars n).length ≤ 10 := by
  simp only [natChars, List.length_map]
  by_cases h0 : n = 0
  · subst h0
    simp
  · have h1 := Nat.base_pow_length_digits_le 10 n (by norm_num) h0
    have h2 : (10 : Nat) ^ (Nat.digits 10 n).length < 10 ^ 11 := by
      have hp : (10 : Nat) ^ 11 = 100000000000 := by norm_num
      have hq : (10 : Nat) ^ 10 = 10000000000 := by norm_num
      rw [hq] at hn
      omega
    have := (Nat.pow_lt_pow_iff_right (by norm_num : 1 < 10)).mp h2
    omega

theorem natChars_inj {a b : Nat} (h : natChars a = natChars b) : a = b := by
  have hmap : ∀ n : Nat, (natChars n).map (fun c => c.toNat - 48) = Nat.digits 10 n := by
    intro n
    simp only [natChars, List.map_map]
    rw [show (Nat.digits 10 n).map ((fun c : Char => c.toNat - 48) ∘ fun d => Char.ofNat (48 + d))
        = (Nat.digits 10 n).map id from List.map_congr_left ?_, List.map_id]
    intro d hd
    have hdlt : d < 10 := Nat.digits_lt_base (by norm_num) hd
    interval_cases d <;> rfl
  have hdig : Nat.digits 10 a = Nat.digits 10 b := by
    rw [← hmap a, ← hmap b, h]
  calc a = Nat.ofDigits 10 (Nat.digits 10 a) := (Nat.ofDigits_digits 10 a).symm
    _ = Nat.ofDigits 10 (Nat.digits 10 b) := by rw [hdig]
    _ = b := Nat.ofDigits_digits 10 b

theorem natEmail_inj {a b : Nat} (h : natEmail a = natEmail b) : a = b := by
  unfold natEmail at h
  have h2 := (List.append_inj' h rfl).1
  injection h2 with h3 h4
  exact natChars_inj h4

theorem natEmail_local_no_at (n : Nat) : '@' ∉ ('u' :: natChars n) := by
  intro hm
  rcases List.mem_cons.mp hm with hm | hm
  · cases hm
  · have := natChars_digits n '@' hm
    revert this
    decide

theorem natEmail_local_no_dot (n : Nat) : ∀ c ∈ ('u' :: natChars n), c ≠ '.' := by
  intro c hc hdot
  subst hdot
  rcases List.mem_cons.mp hc with hm | hm
  · cases hm
  · have := natChars_digits n '.' hm
    revert this
    decide

theorem validate_email_natEmail (n : Nat) (hn : n < 10 ^ 10) :
    validate_email (natEmail n) = .ok () := by
  have hl : '@' ∉ ('u' :: natChars n) := natEmail_local_no_at n
  have hd : '@' ∉ (['x', '.', 'y'] : Str) := by decide
  have hascii : ∀ c ∈ ('u' :: natChars n), c.toNat ≤ 127 := by
    intro c hc
    rcases List.mem_cons.mp hc with hm | hm
    · subst hm; decide
    · have := natChars_digits n c hm
      omega
  have hchars : ∀ c ∈ ('u' :: natChars n), isLocalChar c = true := by
    intro c hc
    rcases List.mem_cons.mp hc with hm | hm
    · subst hm; decide
    · have := natChars_digits n c hm
      have hdig : isAsciiDigitC c = true := by
        simp only [isAsciiDigitC, Bool.and_eq_true, decide_eq_true_eq]
        exact ⟨this.1, this.2⟩
      simp [isLocalChar, isAsciiAlphanumericC, hdig]
  rw [show natEmail n = ('u' :: natChars n) ++ '@' :: ['x', '.', 'y'] from rfl]
  rw [validate_email_eq_checks _ _ hl hd]
  refine (emailChecks_ok_iff _ _).mpr ⟨⟨by simp, ?_⟩, ⟨?_, ?_⟩, ?_, ⟨by decide, by decide⟩,
    by decide, ⟨by decide, by decide⟩, ⟨by decide, by decide⟩,
    List.all_eq_true.mpr hchars, by decide⟩
  · rw [utf8Len_eq_length_of_ascii hascii]
    have := natChars_len_le n hn
    simp only [List.length_cons]
    omega
  · simp
  · intro heq
    have hmem := List.mem_of_getLast?_eq_some heq
    exact natEmail_local_no_dot n '.' hmem rfl
  · intro hcd
    obtain ⟨pre, post, hdec⟩ := (hasConsecDots_iff _).mp hcd
    have : '.' ∈ ('u' :: natChars n) := by
      rw [hdec]
      simp
    exact natEmail_local_no_dot n '.' this rfl

theorem utf8Len_natEmail_le (n : Nat) (hn : n < 10 ^ 10) : utf8Len (natEmail n) ≤ 64 := by
  have hascii : ∀ c ∈ natEmail n, c.toNat ≤ 127 := by
    intro c hc
    unfold natEmail at hc
    rcases List.mem_append.mp hc with hm | hm
    · rcases List.mem_cons.mp hm with hm | hm
      · subst hm; decide
      · have := natChars_digits n c hm
        omega
    · simp only [List.mem_cons, List.not_mem_nil, or_false] at hm
      rcases hm with rfl | rfl | rfl | rfl <;> decide
  rw [utf8Len_eq_length_of_ascii hascii]
  unfold natEmail
  have := natChars_len_le n hn
  simp only [List.length_append, List.length_cons, List.length_nil]
  omega

theorem chainState_a2m_none (n : Nat) : ∀ a, n ≤ a →
    lookupA (chainState n).accountToMember a = none := by
  induction n with
  | zero => intro a _; rfl
  | succ k ih =>
    intro a ha
    show lookupA (insertA (chainState k).accountToMember k (k, 0)) a = none
    rw [lookupA_insertA, if_neg (show ¬ k = a by omega)]
    exact ih a (by omega)

theorem chainState_email_none (n : Nat) : ∀ m, n ≤ m →
    lookupA (chainState n).memberByEmail (natEmail m) = none := by
  induction n with
  | zero => intro m _; rfl
  | succ k ih =>
    intro m hm
    show lookupA (insertA (chainState k).memberByEmail (natEmail k) (k, 0)) (natEmail m) = none
    rw [lookupA_insertA,
      if_neg (show ¬ natEmail k = natEmail m from fun he => by have := natEmail_inj he; omega)]
    exact ih m (by omega)

theorem chainState_members_none (n : Nat) : ∀ a t, n ≤ a →
    lookupA (chainState n).members (a, t) = none := by
  induction n with
  | zero => intro a t _; rfl
  | succ k ih =>
    intro a t ha
    show lookupA (insertA (chainState k).members (k, 0) (chainMember k)) (a, t) = none
    rw [lookupA_insertA,
      if_neg (show ¬ (k, 0) = (a, t) from fun he => by cases he; omega)]
    exact ih a t (by omega)

theorem chainState_count (n : Nat) : (chainState n).memberCount = min n u32Max := by
  induction n with
  | zero => simp [chainState, initState]
  | succ k ih =>
    show satAdd1 (chainState k).memberCount = min (k + 1) u32Max
    rw [ih]
    unfold satAdd1
    omega

theorem chainState_length (n : Nat) : (chainState n).members.length = n := by
  induction n with
  | zero => rfl
  | succ k ih =>
    show (insertA (chainState k).members (k, 0) (chainMember k)).length = k + 1
    rw [insertA_length_absent _ _ _ (chainState_members_none k k 0 le_rfl), ih]

theorem chain_step_ok (n : Nat) (hn : n < 10 ^ 10) :
    exec cfg64 (chainState n)
      (.register (.signed n) .General ['f'] ['l'] cDob (natEmail n) ['a'] cMob) 0 =
      .ok () (chainState (n + 1)) := by
  simp only [exec]
  unfold registerMember
  simp only [Op_bind_apply, ensureSignedOp, Op_pure_apply, getA2M, ensureOp,
    if_pos (chainState_a2m_none n n le_rfl), validate_email_natEmail n hn,
    liftE, liftP, toBounded]
  rw [show validate_mobile cMob = .ok () from rfl]
  rw [show validate_date cDob = .ok () from rfl]
  simp only []
  rw [if_pos (by decide : utf8Len ['f'] ≤ cfg64.maxFirstNameLength)]
  rw [if_pos (by decide : utf8Len ['l'] ≤ cfg64.maxLastNameLength)]
  rw [if_pos (by decide : utf8Len cDob ≤ 10)]
  rw [if_pos (show utf8Len (natEmail n) ≤ cfg64.maxEmailLength from utf8Len_natEmail_le n hn)]
  rw [if_pos (by decide : utf8Len ['a'] ≤ cfg64.maxAddressLength)]
  rw [if_pos (by decide : utf8Len cMob ≤ cfg64.maxMobileLength)]
  simp only [getEmailIdx, ensureOp, if_pos (chainState_email_none n n le_rfl),
    Op_pure_apply, getMemberCount, putMembers, putA2M, putEmailIdx, putMemberByIndex,
    putMemberCount, depositEvent, genUuid]
  rfl

theorem chain_reachable (n : Nat) (hn : n ≤ 4294967296) :
    Reachable cfg64 (chainState n) := by
  induction n with
  | zero => exact Reachable.init
  | succ k ih =>
    exact Reachable.step
      (.register (.signed k) .General ['f'] ['l'] cDob (natEmail k) ['a'] cMob) 0
      (ih (by omega)) (chain_step_ok k (by omega))

/-- C2 counterexample: the state reached by registering accounts 0..2^32-1 (all
distinct, all with distinct valid emails) is reachable, yet violates the claimed
consistency statement: after the 2^32-th registration `saturating_add` pins
MemberCount at u32::MAX = 2^32 - 1 while Members holds 2^32 entries, so
"MemberCount equals the number of entries in Members" fails (and MemberByIndex
then covers 0..2^32-1, one key beyond 0..MemberCount-1). -/
theorem C2_counterexample_u32_saturation :
    Reachable cfg64 (chainState 4294967296) ∧
    ¬ ConsistentClaimed (chainState 4294967296) := by
  refine ⟨chain_reachable 4294967296 le_rfl, ?_⟩
  rintro ⟨_, _, _, _, c5⟩
  rw [chainState_length, chainState_count] at c5
  revert c5
  unfold u32Max
  omega

end MemberPallet
